import Mathlib

/-!
Verification of the LAGOS GIS Toolbox flow-network module (`lagosGIS/NHDNetwork.py`).

The development shallowly embeds the `NHDNetwork` class.  Identifiers are the
Python `Permanent_Identifier` strings, so ids are modelled as `String`.  Python
dictionaries of lists (`upstream`, `downstream`, `waterbody_flowline`) are
modelled as association lists `List (String × List String)` whose lookup
returns `[]` for a missing key, matching the read behaviour of
`collections.defaultdict(list)`.  Python `set` values are modelled as
`Finset String`; the `all_from_ids` accumulator of the trace loop is a Python
list whose length (duplicates included) drives the `limit` test, so it is
modelled as a `Multiset String`.

Modelling conventions, matching a prepared network instance:
* the lazy table-loading guards (`prepare_upstream`, `prepare_downstream`,
  `map_waterbodies_to_flowlines`, `map_flowlines_to_waterbodies`,
  `define_lakes`) read the geodatabase only when the corresponding cached
  dictionary is empty; the embedding takes the already-built dictionaries as
  state, so these guards are no-ops here.  The in-memory guard of
  `classify_waterbody_connectivity` that populates `tenha_waterbody_ids` is
  modelled, because it changes in-memory state.
* `defaultdict.__getitem__` inserts an empty entry for a missing key, which can
  enlarge `len(self.upstream)` during a trace.  The inserted entries are empty
  lists, so lookups are unaffected; the trace result is proved below to be
  independent of the `limit` value, hence this growth is unobservable in any
  result and the embedding keeps the pristine dictionary.
* the Python while-loop of the traces is embedded as a fuel-indexed recursion
  `traceLoop` returning `none` on fuel exhaustion; the trace functions call it
  with an explicit fuel that is proved sufficient (`traceLoop_isSome_of_fuel`),
  so the `Option.getD` fallback is never taken.
* floating-point areas (`AreaSqKm`) are modelled as rationals; the only area
  comparisons in scope are exact threshold tests.
-/

/-- Lookup in an association list modelling a Python `defaultdict(list)` read:
the value stored for the first matching key, `[]` when the key is absent. -/
def lookupLL (m : List (String × List String)) (k : String) : List String :=
  match m with
  | [] => []
  | (k', v) :: rest => if k' = k then v else lookupLL rest k

/-- Lookup in an association list modelling a plain Python `dict` read guarded
by a membership test (`id in d`): `some v` when present, `none` otherwise. -/
def lookupOpt (m : List (String × String)) (k : String) : Option String :=
  match m with
  | [] => none
  | (k', v) :: rest => if k' = k then some v else lookupOpt rest k

/-- Replace the value stored for key `k` (first occurrence), or append a new
entry when `k` is absent.  Models mutation of one `defaultdict` entry. -/
def setEntry (m : List (String × List String)) (k : String) (v : List String) :
    List (String × List String) :=
  match m with
  | [] => [(k, v)]
  | (k', v') :: rest => if k' = k then (k, v) :: rest else (k', v') :: setEntry rest k v

/-- `subAt needle hay`: `needle` is a leading segment of `hay`. -/
def subAt : List Char → List Char → Bool
  | [], _ => true
  | _ :: _, [] => false
  | a :: as, b :: bs => a = b && subAt as bs

/-- `hasSub needle hay`: Python string containment `needle in hay`
(contiguous substring). -/
def hasSub (needle : List Char) : List Char → Bool
  | [] => needle.isEmpty
  | b :: rest => subAt needle (b :: rest) || hasSub needle rest

/-- Python `set(s)` for a string `s`: the set of its characters, as one-character
strings (`define_interlake_erasable` calls `set.difference(lake_id)` on a
string, which iterates the string's characters). -/
def charIds (s : String) : Finset String :=
  (s.data.map (fun c => String.mk [c])).toFinset

/-- The in-memory state of one `NHDNetwork` instance: the table-derived cached
dictionaries plus the explicit tracing configuration.  Fields keep the Python
attribute names. -/
structure NHDNetwork where
  upstream : List (String × List String)
  downstream : List (String × List String)
  waterbody_flowline : List (String × List String)
  flowline_waterbody : List (String × String)
  lakes_areas : List (String × ℚ)
  waterbody_start_ids : List String
  flowline_start_ids : List String
  flowline_stop_ids : List String
  waterbody_stop_ids : List String
  tenha_waterbody_ids : List String
  outlets : List String
  outlets_type : Option String
  exclude_intermittent_flow : Bool
  deriving DecidableEq

/-- `limit = len(self.upstream)` as read immediately after the defaultdict
access `self.upstream[flowline_start_id]`, which inserts the start key when it
is absent. -/
def dictLen (adj : List (String × List String)) (start : String) : Nat :=
  if start ∈ adj.map Prod.fst then adj.length else adj.length + 1

/-- All ids occurring in the value lists of the adjacency dictionary.  Every
frontier produced by the trace loop lives inside this set. -/
def adjUniv (adj : List (String × List String)) : Finset String :=
  ((adj.map Prod.snd).flatten).toFinset

/-- One-step filtered successor set of the trace loop: the adjacency values of
`a`, minus the active barrier ids.  (When the stop list is empty the loop skips
the subtraction; subtracting the empty set is the same.) -/
def fStep (adj : List (String × List String)) (stops : List String) (a : String) :
    Finset String :=
  (lookupLL adj a).toFinset \ stops.toFinset

/-- The next frontier of the loop before the visited-set restriction:
`next_up_flat`, with the barrier subtraction applied exactly when the stop list
is non-empty (`if self.flowline_stop_ids:`). -/
def nextFiltered (adj : List (String × List String)) (stops : List String)
    (from_ids : Finset String) : Finset String :=
  if stops = [] then from_ids.biUnion (fun id => (lookupLL adj id).toFinset)
  else from_ids.biUnion (fun id => (lookupLL adj id).toFinset) \ stops.toFinset

/-- The while-loop of `trace_up_from_a_flowline` / `trace_down_from_a_flowline`
(both loops are line-for-line identical, differing only in which adjacency
dictionary they read), embedded with explicit fuel.

  while from_ids:
      next_up = [self.upstream[id] for id in from_ids]
      next_up_flat = set([id for id_list in next_up for id in id_list])
      if self.flowline_stop_ids:
          next_up_flat = next_up_flat.difference(stop_ids_set)
      if len(all_from_ids) >= limit:
          all_from_ids = list(set(all_from_ids))
          from_ids = next_up_flat.difference(set(all_from_ids))
      else:
          from_ids = next_up_flat
      all_from_ids.extend(from_ids)
-/
def traceLoop (adj : List (String × List String)) (stops : List String) (limit : Nat) :
    Nat → Finset String → Multiset String → Option (Multiset String)
  | 0, from_ids, all_ids => if from_ids = ∅ then some all_ids else none
  | fuel + 1, from_ids, all_ids =>
    if from_ids = ∅ then some all_ids else
      if limit ≤ Multiset.card all_ids then
        traceLoop adj stops limit fuel (nextFiltered adj stops from_ids \ all_ids.toFinset)
          (all_ids.toFinset.val + (nextFiltered adj stops from_ids \ all_ids.toFinset).val)
      else
        traceLoop adj stops limit fuel (nextFiltered adj stops from_ids)
          (all_ids + (nextFiltered adj stops from_ids).val)

/-- Fuel that always suffices for `traceLoop` (proved in
`traceLoop_isSome_of_fuel`). -/
def traceFuel (adj : List (String × List String)) (limit : Nat) : Nat :=
  (adjUniv adj).card * (limit + 1) + limit + 1

/-- Invariant of every state the trace loop passes through when started from
`start`: the frontier is contained in the accumulated set, the start and its
immediate neighbours are accumulated, and every accumulated id is either on
the frontier or has all of its filtered successors accumulated. -/
def TraceInv (adj : List (String × List String)) (stops : List String) (start : String)
    (F : Finset String) (all : Multiset String) : Prop :=
  (∀ x ∈ F, x ∈ all.toFinset) ∧
  start ∈ all.toFinset ∧
  (∀ b ∈ lookupLL adj start, b ∈ all.toFinset) ∧
  (∀ a ∈ all.toFinset, a ∈ F ∨ ∀ b ∈ fStep adj stops a, b ∈ all.toFinset)

/-- The flowline-level part of a trace: seed with the immediate neighbours of
the start plus the start itself, run the loop, and deduplicate
(`list(set(all_from_ids))`). -/
def flowline_trace (adj : List (String × List String)) (stops : List String)
    (start : String) : Finset String :=
  let from_ids := lookupLL adj start
  let all0 : Multiset String := (from_ids ++ [start] : List String)
  let limit := dictLen adj start
  ((traceLoop adj stops limit (traceFuel adj limit) from_ids.toFinset all0).getD all0).toFinset

/-- The `include_wb_permids` tail of both trace functions: add the waterbody id
of every traced flowline that has one, minus the waterbody barrier ids. -/
def wbStep (net : NHDNetwork) (flowTrace : Finset String) : Finset String :=
  let wb_permids_set := flowTrace.biUnion (fun id =>
    match lookupOpt net.flowline_waterbody id with
    | some w => {w}
    | none => ∅)
  flowTrace ∪ (wb_permids_set \ net.waterbody_stop_ids.toFinset)

/-- `NHDNetwork.trace_up_from_a_flowline`.  Returns the trace as a set
(the Python function returns `list(set(all_from_ids))`). -/
def trace_up_from_a_flowline (net : NHDNetwork) (flowline_start_id : String)
    (include_wb_permids : Bool) : Finset String :=
  let flow := flowline_trace net.upstream net.flowline_stop_ids flowline_start_id
  if include_wb_permids then wbStep net flow else flow

/-- `NHDNetwork.trace_down_from_a_flowline` (same body as the upstream trace,
reading the `downstream` dictionary). -/
def trace_down_from_a_flowline (net : NHDNetwork) (flowline_start_id : String)
    (include_wb_permids : Bool) : Finset String :=
  let flow := flowline_trace net.downstream net.flowline_stop_ids flowline_start_id
  if include_wb_permids then wbStep net flow else flow

/-! ### Lake-level operations -/

/-- `NHDNetwork.identify_lake_outlets`: the lake's own flowline ids minus the
ids that appear as an upstream neighbour of one of the lake's own flowlines
(the bottom-most members of the lake's internal network). -/
def identify_lake_outlets (net : NHDNetwork) (waterbody_start_id : String) : Finset String :=
  let flowline_start_ids := (lookupLL net.waterbody_flowline waterbody_start_id).toFinset
  flowline_start_ids \
    flowline_start_ids.biUnion (fun id => (lookupLL net.upstream id).toFinset)

/-- `NHDNetwork.identify_lake_inlets` (symmetric, with the downstream
dictionary). -/
def identify_lake_inlets (net : NHDNetwork) (waterbody_start_id : String) : Finset String :=
  let flowline_start_ids := (lookupLL net.waterbody_flowline waterbody_start_id).toFinset
  flowline_start_ids \
    flowline_start_ids.biUnion (fun id => (lookupLL net.downstream id).toFinset)

/-- `NHDNetwork.trace_up_from_a_waterbody`: exempt the waterbody's own
flowlines from the flowline barriers and the waterbody ids that are substrings
of the waterbody's id from the waterbody barriers (`id not in
waterbody_start_id` is Python string containment), when any flowline barrier is
active; then trace up from every lake outlet with `include_wb_permids=True`
and flatten.  The Python function restores the saved stop lists before
returning, so as a state transformer it is the identity; only the returned
trace is modelled. -/
def trace_up_from_a_waterbody (net : NHDNetwork) (waterbody_start_id : String) :
    Finset String :=
  let flowline_start_ids := (lookupLL net.waterbody_flowline waterbody_start_id).toFinset
  let net' := if net.flowline_stop_ids ≠ [] then
      { net with
        flowline_stop_ids :=
          net.flowline_stop_ids.filter (fun id => decide (id ∉ flowline_start_ids)),
        waterbody_stop_ids :=
          net.waterbody_stop_ids.filter (fun id => !hasSub id.data waterbody_start_id.data) }
    else net
  (identify_lake_outlets net' waterbody_start_id).biUnion
    (fun id => trace_up_from_a_flowline net' id true)

/-- `NHDNetwork.trace_down_from_a_waterbody` (symmetric: lake inlets, then
downstream traces). -/
def trace_down_from_a_waterbody (net : NHDNetwork) (waterbody_start_id : String) :
    Finset String :=
  let flowline_start_ids := (lookupLL net.waterbody_flowline waterbody_start_id).toFinset
  let net' := if net.flowline_stop_ids ≠ [] then
      { net with
        flowline_stop_ids :=
          net.flowline_stop_ids.filter (fun id => decide (id ∉ flowline_start_ids)),
        waterbody_stop_ids :=
          net.waterbody_stop_ids.filter (fun id => !hasSub id.data waterbody_start_id.data) }
    else net
  (identify_lake_inlets net' waterbody_start_id).biUnion
    (fun id => trace_down_from_a_flowline net' id true)

/-- `NHDNetwork.trace_up_from_waterbody_starts`: batch trace, raising when no
start ids are set (modelled as `none`). -/
def trace_up_from_waterbody_starts (net : NHDNetwork) :
    Option (List (String × Finset String)) :=
  if net.waterbody_start_ids ≠ [] then
    some (net.waterbody_start_ids.map (fun id => (id, trace_up_from_a_waterbody net id)))
  else none

/-- `NHDNetwork.set_start_ids`. -/
def set_start_ids (net : NHDNetwork) (waterbody_start_ids : List String) : NHDNetwork :=
  { net with
    waterbody_start_ids := waterbody_start_ids,
    flowline_start_ids := (waterbody_start_ids.map
      (fun lake_id => lookupLL net.waterbody_flowline lake_id)).flatten }

/-- `NHDNetwork.set_stop_ids`. -/
def set_stop_ids (net : NHDNetwork) (waterbody_stop_ids : List String) : NHDNetwork :=
  { net with
    waterbody_stop_ids := waterbody_stop_ids,
    flowline_stop_ids := (waterbody_stop_ids.map
      (fun lake_id => lookupLL net.waterbody_flowline lake_id)).flatten }

/-- `NHDNetwork.deactivate_stops`. -/
def deactivate_stops (net : NHDNetwork) : NHDNetwork :=
  { net with waterbody_stop_ids := [], flowline_stop_ids := [] }

/-- `NHDNetwork.activate_10ha_lake_stops`: barriers at every defined lake of
area at least 0.1 km² (10 ha), remembered in `tenha_waterbody_ids`. -/
def activate_10ha_lake_stops (net : NHDNetwork) : NHDNetwork :=
  let ids := (net.lakes_areas.filter (fun p => decide (mkRat 1 10 ≤ p.2))).map Prod.fst
  { set_stop_ids net ids with tenha_waterbody_ids := ids }

/-- The state on which `classify_waterbody_connectivity` runs its two traces:
populate `tenha_waterbody_ids` if empty (which as a side effect clears any
active barriers), then deactivate barriers when flowline barriers are active
(saving them for restoration). -/
def classify_pre (net : NHDNetwork) : NHDNetwork :=
  let net1 := if net.tenha_waterbody_ids = []
    then deactivate_stops (activate_10ha_lake_stops net) else net
  if net1.flowline_stop_ids ≠ [] then deactivate_stops net1 else net1

/-- The label computation of `classify_waterbody_connectivity`, as a function
of the two waterbody traces, the lake's `inside_ids`, the 10-ha lake
population and the intermittent-exclusion flag. -/
def classify_label (tu td : Finset String) (inside_ids : List String)
    (tenha_waterbody_ids : List String) (exclude_intermittent_flow : Bool) : String :=
  if tu = ∅ ∧ td = ∅ ∧ exclude_intermittent_flow = false then "Isolated"
  else
    if tu \ inside_ids.toFinset = ∅ then
      if td \ inside_ids.toFinset ≠ ∅ then "Headwater" else "Isolated"
    else
      if td \ inside_ids.toFinset = ∅ then
        if (tu \ inside_ids.toFinset) ∩ tenha_waterbody_ids.toFinset ≠ ∅
          then "TerminalLk" else "Terminal"
      else
        if (tu \ inside_ids.toFinset) ∩ tenha_waterbody_ids.toFinset ≠ ∅
          then "DrainageLk" else "Drainage"

/-- The label returned by `classify_waterbody_connectivity`: the label
computation applied to the two traces run on the normalised state, with the
lake's `inside_ids` (its `waterbody_flowline` entry with its own id appended). -/
def classify_result_label (net0 : NHDNetwork) (waterbody_start_id : String) : String :=
  classify_label
    (trace_up_from_a_waterbody (classify_pre net0) waterbody_start_id)
    (trace_down_from_a_waterbody (classify_pre net0) waterbody_start_id)
    (lookupLL (classify_pre net0).waterbody_flowline waterbody_start_id ++ [waterbody_start_id])
    (classify_pre net0).tenha_waterbody_ids
    (classify_pre net0).exclude_intermittent_flow

/-- The state after `classify_waterbody_connectivity` returns.  In the non-
isolated branch the Python code appends the waterbody's own id to the stored
`waterbody_flowline` entry (`inside_ids = self.waterbody_flowline[...]` then
`inside_ids.append(...)` mutate the stored list object through aliasing).  The
saved stop lists are restored at the end only when flowline barriers were
still active after the `tenha` guard (the guard itself erases them). -/
def classify_result_net (net0 : NHDNetwork) (waterbody_start_id : String) : NHDNetwork :=
  let net1 := if net0.tenha_waterbody_ids = []
    then deactivate_stops (activate_10ha_lake_stops net0) else net0
  let net2 := classify_pre net0
  let tu := trace_up_from_a_waterbody net2 waterbody_start_id
  let td := trace_down_from_a_waterbody net2 waterbody_start_id
  let inside_ids := lookupLL net2.waterbody_flowline waterbody_start_id ++ [waterbody_start_id]
  let net3 := if tu = ∅ ∧ td = ∅ ∧ net2.exclude_intermittent_flow = false then net2
    else { net2 with
      waterbody_flowline := setEntry net2.waterbody_flowline waterbody_start_id inside_ids }
  if net1.flowline_stop_ids ≠ [] then
    { net3 with
      waterbody_stop_ids := net1.waterbody_stop_ids,
      flowline_stop_ids := net1.flowline_stop_ids }
  else net3

/-- `NHDNetwork.classify_waterbody_connectivity`, as label plus resulting
state. -/
def classify_waterbody_connectivity (net0 : NHDNetwork) (waterbody_start_id : String) :
    String × NHDNetwork :=
  (classify_result_label net0 waterbody_start_id, classify_result_net net0 waterbody_start_id)

/-- The spec's reading of a lake outlet: an own flowline with no upstream
neighbour within the lake's own flowline set.  Modelled from the spec:
"a lake's outlets are the subset of its own flowline ids that have no
upstream neighbor within the lake's own flowline set". -/
def lake_outlets_claimed (net : NHDNetwork) (w : String) : Finset String :=
  let own := (lookupLL net.waterbody_flowline w).toFinset
  own.filter (fun f => ∀ g ∈ lookupLL net.upstream f, g ∉ own)

/-! ### Subregion outlets -/

/-- The primary-method outlet candidates of `identify_subregion_outlets`: the
upstream values of the keys that never appear as a from-id (the "last known"
segments just above where flow leaves the extent), flattened in dictionary
order. -/
def subregion_outlet_candidates (net : NHDNetwork) : List String :=
  let to_ids := (net.upstream.map Prod.fst).toFinset \ {"0"}
  let from_all := adjUniv net.upstream
  let downstream_inlets := to_ids \ from_all
  ((net.upstream.filter (fun p => decide (p.1 ∈ downstream_inlets))).map Prod.snd).flatten

/-- The union of the (waterbody-inclusive) upstream traces from the primary
outlet candidates. -/
def subregion_outlet_network (net : NHDNetwork) : Finset String :=
  (subregion_outlet_candidates net).foldr
    (fun o acc => trace_up_from_a_flowline net o true ∪ acc) ∅

/-- `NHDNetwork.identify_subregion_outlets`: returns the outlet list and the
updated state, or `none` where the Python raises (`ZeroDivisionError` when no
id occurs as a from-id, `ValueError` from `max` on an empty candidate sink
set).  `network_fraction < .5` is modelled exactly as
`2 * |outlet_network| < |from_all|`.  In the frontal-drainage sub-branch the
Python mutates only the local `lowest_to_ids` list and neither reassigns
`outlets` nor sets `outlets_type`, so the primary candidates are stored
unchanged and the type keeps its prior value.  The Python iterates sets in
unspecified order; the secondary outlet list is modelled in sorted order (all
uses are order-insensitive). -/
def identify_subregion_outlets (net : NHDNetwork) : Option (List String × NHDNetwork) :=
  let to_ids := (net.upstream.map Prod.fst).toFinset \ {"0"}
  let from_all := adjUniv net.upstream
  let downstream_inlets := to_ids \ from_all
  let outlets := subregion_outlet_candidates net
  let outlet_network := subregion_outlet_network net
  if from_all.card = 0 then none
  else
    if outlets = [] ∨ 2 * outlet_network.card < from_all.card then
      let to_ids2 := (net.upstream.map Prod.fst).toFinset
      let next_up_flat := to_ids2.biUnion (fun id => (lookupLL net.upstream id).toFinset)
      let lowest_to_ids := to_ids2 \ next_up_flat
      if lowest_to_ids = {"0"} ∨ lowest_to_ids \ downstream_inlets = {"0"} then
        some (outlets, { net with outlets := outlets })
      else
        if lowest_to_ids = ∅ then none
        else
          let lowest_list := lowest_to_ids.sort (· ≤ ·)
          let distinct_net_sizes := lowest_list.map
            (fun id => (id, (trace_up_from_a_flowline net id true).card))
          let max_net_size := (distinct_net_sizes.map Prod.snd).foldr max 0
          let outlets2 :=
            (distinct_net_sizes.filter (fun p => decide (max_net_size ≤ 2 * p.2))).map Prod.fst
          some (outlets2, { net with outlets := outlets2, outlets_type := some "secondary" })
    else
      some (outlets, { net with outlets := outlets, outlets_type := some "primary" })

/-- The ids that have a recorded upstream neighbour: keys of the upstream
dictionary with a non-empty neighbour list. -/
def subregion_upstream_keyed (net : NHDNetwork) : Finset String :=
  ((net.upstream.filter (fun p => decide (p.2 ≠ []))).map Prod.fst).toFinset

/-- Modelled from the spec: the primary-method acceptance test as the claim
words it — the candidate set is non-empty and the union of the upstream traces
from the candidates covers at least half of all segments that have any
recorded upstream neighbour. -/
def subregion_primary_accept_claimed (net : NHDNetwork) : Prop :=
  subregion_outlet_candidates net ≠ [] ∧
  (subregion_upstream_keyed net).card ≤
    2 * (subregion_outlet_network net ∩ subregion_upstream_keyed net).card

/-! ### Interlake erasable regions -/

/-- Lookup in an association list of trace sets (`∅` when the key is absent;
the Python dict accesses are only made at keys that are present by
construction). -/
def lookupFS (m : List (String × Finset String)) (k : String) : Finset String :=
  match m with
  | [] => ∅
  | (k', v) :: rest => if k' = k then v else lookupFS rest k

/-- `NHDNetwork.trace_up_from_hu4_outlets`: compute the subregion outlets if
the cache is empty (propagating its failure), then union the waterbody-
inclusive upstream traces of all outlets and add the owning waterbody id of
every traced flowline once more. -/
def trace_up_from_hu4_outlets (net : NHDNetwork) : Option (Finset String × NHDNetwork) :=
  match (if net.outlets = [] then identify_subregion_outlets net
         else some (net.outlets, net)) with
  | none => none
  | some (_, net') =>
    let results := net'.outlets.foldr (fun o acc => trace_up_from_a_flowline net' o true ∪ acc) ∅
    some (results ∪ results.biUnion (fun f =>
      match lookupOpt net'.flowline_waterbody f with
      | some w => {w}
      | none => ∅), net')

/-- The `tenha_conn` computation of `define_interlake_erasable`: deactivate
stops, activate the 10-ha barriers, deactivate again, then classify every
10-ha lake in order, threading the state (each classification can mutate the
`waterbody_flowline` entry of its lake). -/
def interlake_tenha_conn_state (net : NHDNetwork) : List (String × String) × NHDNetwork :=
  let s3 := deactivate_stops (activate_10ha_lake_stops (deactivate_stops net))
  s3.tenha_waterbody_ids.foldl
    (fun acc id =>
      (acc.1 ++ [(id, (classify_waterbody_connectivity acc.2 id).1)],
       (classify_waterbody_connectivity acc.2 id).2))
    ([], s3)

/-- The per-focal-lake set algebra of `define_interlake_erasable` (the body of
the `for lake_id in focal_lakes` loop).  `set.difference(lake_id)` subtracts
the characters of the id string (`charIds`); `v.isdisjoint(...)` and
`if v.intersection(...)` are the empty/non-empty intersection tests. -/
def interlake_erasable_for (lake_id : String)
    (focal_upstream_full focal_downstream_full focal_interlake_full : Finset String)
    (tenha_terminal tenha_drainage : List (String × Finset String))
    (isolated_erasable_segments : Finset String) : Finset String :=
  let focal_downstream := focal_downstream_full \ charIds lake_id
  let focal_upstream := focal_upstream_full \ charIds lake_id
  let focal_interlake := focal_interlake_full \ charIds lake_id
  if focal_upstream.card < 2 then ∅
  else
    let terminal_tenha_eligible :=
      tenha_terminal.filter (fun p => decide (p.1 ∉ focal_downstream))
    let tenha_drainage_eligible :=
      tenha_drainage.filter (fun p => decide (p.1 ∈ focal_upstream))
    let other_tenha_eligible := terminal_tenha_eligible ++ tenha_drainage_eligible
    let full_erasable_segments :=
      (other_tenha_eligible.filter (fun p => decide (p.2 ∩ focal_interlake = ∅))).foldr
        (fun p acc => p.2 ∪ acc) ∅
    let part_erasable_segments :=
      (other_tenha_eligible.filter (fun p => decide (p.2 ∩ focal_interlake ≠ ∅))).foldr
        (fun p acc => (p.2 \ focal_interlake) ∪ acc) ∅
    isolated_erasable_segments ∪ full_erasable_segments ∪ part_erasable_segments

/-- The state `s5` of `define_interlake_erasable` right before the 10-ha batch
trace: the classification state with the 10-ha lakes as start ids. -/
def interlake_s5 (net : NHDNetwork) : NHDNetwork :=
  set_start_ids (interlake_tenha_conn_state net).2
    (interlake_tenha_conn_state net).2.tenha_waterbody_ids

/-- `tenha_nets_full` of `define_interlake_erasable`: the upstream trace of
every 10-ha lake on the state `s5`, keyed by lake id. -/
def interlake_tenha_nets_full (net : NHDNetwork) : List (String × Finset String) :=
  (interlake_s5 net).waterbody_start_ids.map
    (fun k => (k, trace_up_from_a_waterbody (interlake_s5 net) k))

/-- `tenha_isolated_keys` of `define_interlake_erasable`: the 10-ha lakes
classified as Isolated. -/
def interlake_tenha_isolated_keys (net : NHDNetwork) : List String :=
  ((interlake_tenha_nets_full net).filter
    (fun p => decide (lookupOpt (interlake_tenha_conn_state net).1 p.1 = some "Isolated"))).map
    Prod.fst

/-- `tenha_terminal` of `define_interlake_erasable`: the Terminal(Lk) 10-ha
lakes' traces with the on-network flowlines removed. -/
def interlake_tenha_terminal (net : NHDNetwork) (on_network : Finset String) :
    List (String × Finset String) :=
  ((interlake_tenha_nets_full net).filter
    (fun p => decide (lookupOpt (interlake_tenha_conn_state net).1 p.1 = some "Terminal" ∨
      lookupOpt (interlake_tenha_conn_state net).1 p.1 = some "TerminalLk"))).map
    (fun p => (p.1, p.2 \ on_network))

/-- `tenha_drainage` of `define_interlake_erasable`: the Headwater/Drainage(Lk)
10-ha lakes' traces. -/
def interlake_tenha_drainage (net : NHDNetwork) : List (String × Finset String) :=
  (interlake_tenha_nets_full net).filter
    (fun p => decide (lookupOpt (interlake_tenha_conn_state net).1 p.1 = some "Headwater" ∨
      lookupOpt (interlake_tenha_conn_state net).1 p.1 = some "Drainage" ∨
      lookupOpt (interlake_tenha_conn_state net).1 p.1 = some "DrainageLk"))

/-- `NHDNetwork.define_interlake_erasable`: the erasable-region dictionary for
the focal lakes, plus the final state; `none` where the Python raises (no
start ids set, no 10-ha lakes when batch tracing is re-invoked, or a failure
inside `identify_subregion_outlets`). -/
def define_interlake_erasable (net : NHDNetwork) :
    Option (List (String × Finset String) × NHDNetwork) :=
  if net.waterbody_start_ids = [] then none
  else
    let focal_lakes := net.waterbody_start_ids
    let s1 := deactivate_stops net
    let lake_upstream_traces := focal_lakes.map (fun k => (k, trace_up_from_a_waterbody s1 k))
    let lake_downstream_traces := focal_lakes.map (fun k => (k, trace_down_from_a_waterbody s1 k))
    let s2 := activate_10ha_lake_stops s1
    let lake_interlake_traces := focal_lakes.map (fun k => (k, trace_up_from_a_waterbody s2 k))
    if (interlake_s5 net).waterbody_start_ids = [] then none
    else
      match trace_up_from_hu4_outlets (interlake_s5 net) with
      | none => none
      | some (on_network, s6) =>
        some (focal_lakes.map (fun lake_id =>
          (lake_id, interlake_erasable_for lake_id
            (lookupFS lake_upstream_traces lake_id)
            (lookupFS lake_downstream_traces lake_id)
            (lookupFS lake_interlake_traces lake_id)
            (interlake_tenha_terminal net on_network)
            (interlake_tenha_drainage net)
            (interlake_tenha_isolated_keys net).toFinset)), deactivate_stops s6)

/-! ### Example networks used as concrete instances -/

/-- A lake `w` with two internal flowlines where `L2` feeds `L1`
(`L1` is the outlet), on an otherwise empty network. -/
def twoFlowlineLakeNet : NHDNetwork :=
  { upstream := [("L1", ["L2"])],
    downstream := [("L2", ["L1"])],
    waterbody_flowline := [("w", ["L1", "L2"])],
    flowline_waterbody := [("L1", "w"), ("L2", "w")],
    lakes_areas := [("w", 1)], waterbody_start_ids := [], flowline_start_ids := [],
    flowline_stop_ids := [], waterbody_stop_ids := [], tenha_waterbody_ids := ["t"],
    outlets := [], outlets_type := none, exclude_intermittent_flow := false }

/-- A lake `w` with a single internal flowline `f` and no connectivity beyond
it. -/
def oneFlowlineLakeNet : NHDNetwork :=
  { upstream := [("f", [])],
    downstream := [("f", [])],
    waterbody_flowline := [("w", ["f"])],
    flowline_waterbody := [("f", "w")],
    lakes_areas := [("w", 1)], waterbody_start_ids := [], flowline_start_ids := [],
    flowline_stop_ids := [], waterbody_stop_ids := [], tenha_waterbody_ids := ["t"],
    outlets := [], outlets_type := none, exclude_intermittent_flow := false }

/-- A star network: three sources `x1, x2, x3` all flowing into `y`. -/
def starNet : NHDNetwork :=
  { upstream := [("y", ["x1", "x2", "x3"])],
    downstream := [],
    waterbody_flowline := [], flowline_waterbody := [],
    lakes_areas := [], waterbody_start_ids := [], flowline_start_ids := [],
    flowline_stop_ids := [], waterbody_stop_ids := [], tenha_waterbody_ids := [],
    outlets := [], outlets_type := none, exclude_intermittent_flow := false }

/-- A network whose upstream dictionary is the chain `A → B → C → D`
(A upstream-most), with an active flowline barrier at `B`. -/
def chainBNet : NHDNetwork :=
  { upstream := [("D", ["C"]), ("C", ["B"]), ("B", ["A"])],
    downstream := [], waterbody_flowline := [], flowline_waterbody := [],
    lakes_areas := [], waterbody_start_ids := [], flowline_start_ids := [],
    flowline_stop_ids := ["B"], waterbody_stop_ids := [], tenha_waterbody_ids := [],
    outlets := [], outlets_type := none, exclude_intermittent_flow := false }

/-- A network whose upstream dictionary is the 3-cycle `c → b → a → c`
(and the matching downstream dictionary), with no barriers. -/
def cycleNet : NHDNetwork :=
  { upstream := [("c", ["b"]), ("b", ["a"]), ("a", ["c"])],
    downstream := [("b", ["c"]), ("a", ["b"]), ("c", ["a"])],
    waterbody_flowline := [], flowline_waterbody := [],
    lakes_areas := [], waterbody_start_ids := [], flowline_start_ids := [],
    flowline_stop_ids := [], waterbody_stop_ids := [], tenha_waterbody_ids := [],
    outlets := [], outlets_type := none, exclude_intermittent_flow := false }

/-- An interlake scenario with an isolated focal lake: the focal lake `F` has
no flowlines at all (empty trace), one 10-ha lake `T` with flowline `t1`
exists, and the subregion-outlet cache is pre-populated with `o` so the
interlake computation succeeds. -/
def interCexNet : NHDNetwork :=
  { upstream := [("t1", [])],
    downstream := [("t1", [])],
    waterbody_flowline := [("T", ["t1"])],
    flowline_waterbody := [("t1", "T")],
    lakes_areas := [("T", 1)],
    waterbody_start_ids := ["F"],
    flowline_start_ids := [], flowline_stop_ids := [], waterbody_stop_ids := [],
    tenha_waterbody_ids := [],
    outlets := ["o"], outlets_type := none, exclude_intermittent_flow := false }

/-- The same interlake scenario with the focal lake `F` given one flowline `f`
(its lake outlet), so the focal trace is nonempty. -/
def interWitNet : NHDNetwork :=
  { upstream := [("f", []), ("t1", [])],
    downstream := [("f", []), ("t1", [])],
    waterbody_flowline := [("F", ["f"]), ("T", ["t1"])],
    flowline_waterbody := [("f", "F"), ("t1", "T")],
    lakes_areas := [("T", 1)],
    waterbody_start_ids := ["F"],
    flowline_start_ids := [], flowline_stop_ids := [], waterbody_stop_ids := [],
    tenha_waterbody_ids := [],
    outlets := ["o"], outlets_type := none, exclude_intermittent_flow := false }

/-! ### Basic lemmas about the dictionary model -/

lemma lookupLL_eq_nil (m : List (String × List String)) (k : String)
    (h : k ∉ m.map Prod.fst) : lookupLL m k = [] := by
  induction m with
  | nil => rfl
  | cons p rest ih =>
    simp only [List.map_cons, List.mem_cons] at h
    push_neg at h
    cases p with
    | mk k' v =>
      simp only [lookupLL]
      rw [if_neg (by simpa using fun e => h.1 e.symm)]
      exact ih h.2

lemma mem_lookupLL_mem_univ {m : List (String × List String)} {k b : String}
    (h : b ∈ lookupLL m k) : b ∈ adjUniv m := by
  induction m with
  | nil => exact absurd h (List.not_mem_nil b)
  | cons p rest ih =>
    cases p with
    | mk k' v =>
      simp only [lookupLL] at h
      simp only [adjUniv, List.map_cons, List.flatten_cons, List.toFinset_append,
        Finset.mem_union, List.mem_toFinset]
      by_cases hk : k' = k
      · rw [if_pos hk] at h
        exact Or.inl h
      · rw [if_neg hk] at h
        have := ih h
        simp only [adjUniv, List.mem_toFinset] at this
        exact Or.inr this

lemma mem_fStep {adj : List (String × List String)} {stops : List String} {a b : String} :
    b ∈ fStep adj stops a ↔ b ∈ lookupLL adj a ∧ b ∉ stops := by
  simp [fStep]

lemma fStep_subset_univ {adj : List (String × List String)} {stops : List String}
    {a b : String} (h : b ∈ fStep adj stops a) : b ∈ adjUniv adj :=
  mem_lookupLL_mem_univ (mem_fStep.mp h).1

/-- The conditional barrier subtraction of the loop, written uniformly: the
filtered next frontier is the union of the one-step filtered successor sets. -/
lemma nextFiltered_eq (adj : List (String × List String)) (stops : List String)
    (F : Finset String) :
    nextFiltered adj stops F = F.biUnion (fStep adj stops) := by
  rw [nextFiltered]
  by_cases hs : stops = []
  · subst hs
    rw [if_pos rfl]
    ext b
    simp [fStep]
  · rw [if_neg hs]
    ext b
    simp only [Finset.mem_sdiff, Finset.mem_biUnion, List.mem_toFinset, mem_fStep]
    tauto

lemma toFinset_phase1 (all : Multiset String) (s : Finset String) :
    (all + s.val).toFinset = all.toFinset ∪ s := by
  rw [Multiset.toFinset_add]
  congr 1
  exact s.val_toFinset

lemma toFinset_phase2 (all : Multiset String) (s : Finset String) :
    (all.toFinset.val + s.val).toFinset = all.toFinset ∪ s := by
  rw [Multiset.toFinset_add, Finset.val_toFinset]
  congr 1
  exact s.val_toFinset

/-! ### Trace-loop lemmas -/

lemma traceLoop_empty (adj : List (String × List String)) (stops : List String)
    (limit fuel : Nat) (all : Multiset String) :
    traceLoop adj stops limit fuel ∅ all = some all := by
  cases fuel <;> simp [traceLoop]

lemma traceLoop_isSome_mono (adj : List (String × List String)) (stops : List String)
    (limit : Nat) :
    ∀ n m (F : Finset String) (all : Multiset String), n ≤ m →
      (traceLoop adj stops limit n F all).isSome →
      (traceLoop adj stops limit m F all).isSome := by
  intro n
  induction n with
  | zero =>
    intro m F all _ h0
    simp only [traceLoop] at h0
    by_cases hF : F = ∅
    · subst hF
      rw [traceLoop_empty]
      rfl
    · rw [if_neg hF] at h0
      simp at h0
  | succ n ih =>
    intro m F all hnm hsome
    obtain ⟨m', rfl⟩ : ∃ m', m = m' + 1 := ⟨m - 1, by omega⟩
    by_cases hF : F = ∅
    · subst hF
      rw [traceLoop_empty]
      rfl
    · simp only [traceLoop, if_neg hF] at hsome ⊢
      by_cases hlim : limit ≤ Multiset.card all
      · rw [if_pos hlim] at hsome ⊢
        exact ih m' _ _ (by omega) hsome
      · rw [if_neg hlim] at hsome ⊢
        exact ih m' _ _ (by omega) hsome

/-- Decreasing measure for the trace loop: lexicographic combination of the
unvisited part of the adjacency universe and the distance of the accumulator's
length from `limit`. -/
def traceMu (adj : List (String × List String)) (limit : Nat) (F : Finset String)
    (all : Multiset String) : Nat :=
  if F = ∅ then 0
  else (adjUniv adj \ all.toFinset).card * (limit + 1) + (limit - Multiset.card all) + 1

lemma nextFiltered_subset_univ {adj : List (String × List String)} {stops : List String}
    {F : Finset String} {b : String} (h : b ∈ nextFiltered adj stops F) :
    b ∈ adjUniv adj := by
  rw [nextFiltered_eq] at h
  obtain ⟨a, _, hb⟩ := Finset.mem_biUnion.mp h
  exact fStep_subset_univ hb

lemma traceLoop_isSome_of_mu (adj : List (String × List String)) (stops : List String)
    (limit : Nat) :
    ∀ fuel (F : Finset String) (all : Multiset String),
      traceMu adj limit F all ≤ fuel → (traceLoop adj stops limit fuel F all).isSome := by
  intro fuel
  induction fuel with
  | zero =>
    intro F all h
    have hF : F = ∅ := by
      by_contra hne
      rw [traceMu, if_neg hne] at h
      omega
    subst hF
    rw [traceLoop_empty]
    rfl
  | succ n ih =>
    intro F all h
    by_cases hF : F = ∅
    · subst hF
      rw [traceLoop_empty]
      rfl
    · rw [traceMu, if_neg hF] at h
      simp only [traceLoop, if_neg hF]
      set c : Nat := (adjUniv adj \ all.toFinset).card with hc
      set L : Nat := limit with hL
      by_cases hlim : limit ≤ Multiset.card all
      · rw [if_pos hlim]
        apply ih
        set fresh : Finset String := nextFiltered adj stops F \ all.toFinset with hfresh
        by_cases hfr : fresh = ∅
        · rw [traceMu, if_pos hfr]
          omega
        · rw [traceMu, if_neg hfr]
          have hsub : adjUniv adj \ (all.toFinset.val + fresh.val).toFinset ⊂
              adjUniv adj \ all.toFinset := by
            rw [toFinset_phase2]
            obtain ⟨x, hx⟩ := Finset.nonempty_iff_ne_empty.mpr hfr
            have hxU : x ∈ adjUniv adj :=
              nextFiltered_subset_univ (Finset.mem_sdiff.mp hx).1
            have hxA : x ∉ all.toFinset := (Finset.mem_sdiff.mp hx).2
            constructor
            · intro y hy
              rw [Finset.mem_sdiff] at hy ⊢
              exact ⟨hy.1, fun hmem => hy.2 (Finset.mem_union_left _ hmem)⟩
            · intro hcon
              have := hcon (Finset.mem_sdiff.mpr ⟨hxU, hxA⟩)
              rw [Finset.mem_sdiff] at this
              exact this.2 (Finset.mem_union_right _ hx)
          have hlt : (adjUniv adj \ (all.toFinset.val + fresh.val).toFinset).card + 1 ≤ c :=
            Finset.card_lt_card hsub
          set c' : Nat := (adjUniv adj \ (all.toFinset.val + fresh.val).toFinset).card
          have hmul : c' * (L + 1) ≤ (c - 1) * (L + 1) :=
            Nat.mul_le_mul_right _ (by omega)
          have hcL : (c - 1) * (L + 1) + (L + 1) = c * (L + 1) := by
            have : (c - 1) + 1 = c := by omega
            calc (c - 1) * (L + 1) + (L + 1) = ((c - 1) + 1) * (L + 1) := by ring
              _ = c * (L + 1) := by rw [this]
          have hbound : c' * (L + 1) + (L - Multiset.card (all.toFinset.val + fresh.val)) + 1
              ≤ c * (L + 1) := by
            have h2 : L - Multiset.card (all.toFinset.val + fresh.val) ≤ L := Nat.sub_le _ _
            omega
          omega
      · rw [if_neg hlim]
        apply ih
        set nf : Finset String := nextFiltered adj stops F with hnf
        by_cases hfr : nf = ∅
        · rw [traceMu, if_pos hfr]
          omega
        · rw [traceMu, if_neg hfr]
          have hsub : adjUniv adj \ (all + nf.val).toFinset ⊆ adjUniv adj \ all.toFinset := by
            rw [toFinset_phase1]
            intro y hy
            rw [Finset.mem_sdiff] at hy ⊢
            exact ⟨hy.1, fun hmem => hy.2 (Finset.mem_union_left _ hmem)⟩
          have hle : (adjUniv adj \ (all + nf.val).toFinset).card ≤ c :=
            Finset.card_le_card hsub
          set c' : Nat := (adjUniv adj \ (all + nf.val).toFinset).card
          have hmul : c' * (L + 1) ≤ c * (L + 1) := Nat.mul_le_mul_right _ hle
          have hcard : Multiset.card (all + nf.val) = Multiset.card all + nf.card := by
            rw [Multiset.card_add]
            rfl
          have hpos : 1 ≤ nf.card := Finset.card_pos.mpr (Finset.nonempty_iff_ne_empty.mpr hfr)
          omega

/-- The fuel chosen by the trace functions always dominates the measure. -/
lemma traceMu_le_traceFuel (adj : List (String × List String)) (limit : Nat)
    (F : Finset String) (all : Multiset String) :
    traceMu adj limit F all ≤ traceFuel adj limit := by
  rw [traceMu, traceFuel]
  by_cases hF : F = ∅
  · rw [if_pos hF]
    omega
  · rw [if_neg hF]
    have h1 : (adjUniv adj \ all.toFinset).card ≤ (adjUniv adj).card :=
      Finset.card_le_card (Finset.sdiff_subset)
    have h2 : (adjUniv adj \ all.toFinset).card * (limit + 1) ≤ (adjUniv adj).card * (limit + 1) :=
      Nat.mul_le_mul_right _ h1
    have h3 : limit - Multiset.card all ≤ limit := Nat.sub_le _ _
    omega

/-- Every call of the trace loop made by the trace functions returns a value:
the while-loop terminates on every input, cyclic flow included. -/
lemma traceLoop_isSome_of_fuel (adj : List (String × List String)) (stops : List String)
    (limit : Nat) (F : Finset String) (all : Multiset String) :
    (traceLoop adj stops limit (traceFuel adj limit) F all).isSome :=
  traceLoop_isSome_of_mu adj stops limit _ F all (traceMu_le_traceFuel adj limit F all)

/-- Soundness of the loop: any property preserved by filtered steps and true of
the seed accumulator and frontier is true of everything in the result. -/
lemma traceLoop_sound (adj : List (String × List String)) (stops : List String)
    (limit : Nat) (P : String → Prop)
    (hstep : ∀ a b, P a → b ∈ fStep adj stops a → P b) :
    ∀ fuel (F : Finset String) (all : Multiset String) r,
      traceLoop adj stops limit fuel F all = some r →
      (∀ a ∈ all, P a) → (∀ a ∈ F, P a) →
      ∀ a ∈ r, P a := by
  intro fuel
  induction fuel with
  | zero =>
    intro F all r hr hall _ a ha
    by_cases hF : F = ∅
    · rw [hF, traceLoop_empty, Option.some_inj] at hr
      exact hall a (hr ▸ ha)
    · simp only [traceLoop, if_neg hF] at hr
      exact absurd hr (by simp)
  | succ n ih =>
    intro F all r hr hall hfr a ha
    by_cases hF : F = ∅
    · rw [hF, traceLoop_empty, Option.some_inj] at hr
      exact hall a (hr ▸ ha)
    · simp only [traceLoop, if_neg hF] at hr
      have hnfP : ∀ b ∈ nextFiltered adj stops F, P b := by
        intro b hb
        rw [nextFiltered_eq] at hb
        obtain ⟨x, hx, hbx⟩ := Finset.mem_biUnion.mp hb
        exact hstep x b (hfr x hx) hbx
      by_cases hlim : limit ≤ Multiset.card all
      · rw [if_pos hlim] at hr
        refine ih _ _ r hr ?_ ?_ a ha
        · intro x hx
          rcases Multiset.mem_add.mp hx with hx | hx
          · exact hall x (Multiset.mem_toFinset.mp (by exact hx))
          · exact hnfP x (Finset.mem_sdiff.mp (by exact hx)).1
        · intro x hx
          exact hnfP x (Finset.mem_sdiff.mp hx).1
      · rw [if_neg hlim] at hr
        refine ih _ _ r hr ?_ ?_ a ha
        · intro x hx
          rcases Multiset.mem_add.mp hx with hx | hx
          · exact hall x hx
          · exact hnfP x (by exact hx)
        · exact hnfP

/-- Completeness scaffolding: the result set contains the seed accumulator and
is closed under filtered steps, provided the invariant ("every accumulated id
is either on the frontier or has all its filtered successors accumulated")
holds at entry. -/
lemma traceLoop_closed (adj : List (String × List String)) (stops : List String)
    (limit : Nat) :
    ∀ fuel (F : Finset String) (all : Multiset String) r,
      traceLoop adj stops limit fuel F all = some r →
      (∀ x ∈ F, x ∈ all.toFinset) →
      (∀ a ∈ all.toFinset, a ∈ F ∨ ∀ b ∈ fStep adj stops a, b ∈ all.toFinset) →
      (∀ x ∈ all.toFinset, x ∈ r.toFinset) ∧
      (∀ a ∈ r.toFinset, ∀ b ∈ fStep adj stops a, b ∈ r.toFinset) := by
  intro fuel
  induction fuel with
  | zero =>
    intro F all r hr _ hInv
    by_cases hF : F = ∅
    · rw [hF, traceLoop_empty, Option.some_inj] at hr
      subst hr
      refine ⟨fun x hx => hx, fun a ha b hb => ?_⟩
      rcases hInv a ha with h | h
      · exact absurd h (by simp [hF])
      · exact h b hb
    · simp only [traceLoop, if_neg hF] at hr
      exact absurd hr (by simp)
  | succ n ih =>
    intro F all r hr hFA hInv
    by_cases hF : F = ∅
    · rw [hF, traceLoop_empty, Option.some_inj] at hr
      subst hr
      refine ⟨fun x hx => hx, fun a ha b hb => ?_⟩
      rcases hInv a ha with h | h
      · exact absurd h (by simp [hF])
      · exact h b hb
    · simp only [traceLoop, if_neg hF] at hr
      by_cases hlim : limit ≤ Multiset.card all
      · rw [if_pos hlim] at hr
        set fresh : Finset String := nextFiltered adj stops F \ all.toFinset with hfresh
        have htf : (all.toFinset.val + fresh.val).toFinset = all.toFinset ∪ fresh :=
          toFinset_phase2 all fresh
        have hnext_mem : ∀ b ∈ nextFiltered adj stops F, b ∈ all.toFinset ∪ fresh := by
          intro b hb
          by_cases hbA : b ∈ all.toFinset
          · exact Finset.mem_union_left _ hbA
          · exact Finset.mem_union_right _ (Finset.mem_sdiff.mpr ⟨hb, hbA⟩)
        have hrec := ih fresh (all.toFinset.val + fresh.val) r hr
          (by
            intro x hx
            rw [htf]
            exact Finset.mem_union_right _ hx)
          (by
            intro a ha
            rw [htf] at ha ⊢
            rcases Finset.mem_union.mp ha with ha | ha
            · rcases hInv a ha with hfa | hcl
              · right
                intro b hb
                apply hnext_mem
                rw [nextFiltered_eq]
                exact Finset.mem_biUnion.mpr ⟨a, hfa, hb⟩
              · right
                intro b hb
                exact Finset.mem_union_left _ (hcl b hb)
            · left
              exact ha)
        refine ⟨fun x hx => hrec.1 x (by rw [htf]; exact Finset.mem_union_left _ hx), hrec.2⟩
      · rw [if_neg hlim] at hr
        set nf : Finset String := nextFiltered adj stops F with hnfd
        have htf : (all + nf.val).toFinset = all.toFinset ∪ nf := toFinset_phase1 all nf
        have hrec := ih nf (all + nf.val) r hr
          (by
            intro x hx
            rw [htf]
            exact Finset.mem_union_right _ hx)
          (by
            intro a ha
            rw [htf] at ha ⊢
            rcases Finset.mem_union.mp ha with ha | ha
            · rcases hInv a ha with hfa | hcl
              · right
                intro b hb
                refine Finset.mem_union_right _ ?_
                rw [hnfd, nextFiltered_eq]
                exact Finset.mem_biUnion.mpr ⟨a, hfa, hb⟩
              · right
                intro b hb
                exact Finset.mem_union_left _ (hcl b hb)
            · left
              exact ha)
        refine ⟨fun x hx => hrec.1 x (by rw [htf]; exact Finset.mem_union_left _ hx), hrec.2⟩

/-- Characterisation of the flowline-level trace: it contains the start, and an
id `y ≠ start` is in the trace exactly when some immediate neighbour `z` of the
start (barrier or not) reaches `y` by steps that never land on a barrier id. -/
lemma mem_flowline_trace (adj : List (String × List String)) (stops : List String)
    (start y : String) :
    y ∈ flowline_trace adj stops start ↔
      y = start ∨ ∃ z, z ∈ lookupLL adj start ∧
        Relation.ReflTransGen (fun a b => b ∈ fStep adj stops a) z y := by
  set L := dictLen adj start with hLdef
  set F0 : Finset String := (lookupLL adj start).toFinset with hF0
  set all0 : Multiset String := ((lookupLL adj start ++ [start] : List String) : Multiset String)
    with hall0
  obtain ⟨r, hr⟩ := Option.isSome_iff_exists.mp
    (traceLoop_isSome_of_fuel adj stops L F0 all0)
  have htr : flowline_trace adj stops start = r.toFinset := by
    rw [flowline_trace]
    rw [← hLdef, ← hF0, ← hall0, hr]
    rfl
  have hmem_all0 : ∀ a, a ∈ all0 ↔ (a ∈ lookupLL adj start ∨ a = start) := by
    intro a
    rw [hall0]
    simp [Multiset.mem_coe, List.mem_append]
  constructor
  · intro hy
    rw [htr, Multiset.mem_toFinset] at hy
    refine traceLoop_sound adj stops L
      (fun w => w = start ∨ ∃ z, z ∈ lookupLL adj start ∧
        Relation.ReflTransGen (fun a b => b ∈ fStep adj stops a) z w)
      ?_ _ _ _ _ hr ?_ ?_ y hy
    · rintro a b (rfl | ⟨z, hz, hzr⟩) hb
      · exact Or.inr ⟨b, (mem_fStep.mp hb).1, Relation.ReflTransGen.refl⟩
      · exact Or.inr ⟨z, hz, hzr.tail hb⟩
    · intro a ha
      rcases (hmem_all0 a).mp ha with h | h
      · exact Or.inr ⟨a, h, Relation.ReflTransGen.refl⟩
      · exact Or.inl h
    · intro a ha
      exact Or.inr ⟨a, List.mem_toFinset.mp ha, Relation.ReflTransGen.refl⟩
  · intro hy
    have hcl := traceLoop_closed adj stops L _ F0 all0 r hr
      (by
        intro x hx
        rw [Multiset.mem_toFinset, hmem_all0]
        exact Or.inl (List.mem_toFinset.mp hx))
      (by
        intro a ha
        rw [Multiset.mem_toFinset, hmem_all0] at ha
        rcases ha with h | h
        · exact Or.inl (List.mem_toFinset.mpr h)
        · subst h
          right
          intro b hb
          rw [Multiset.mem_toFinset, hmem_all0]
          exact Or.inl (mem_fStep.mp hb).1)
    rw [htr]
    rcases hy with rfl | ⟨z, hz, hzr⟩
    · exact hcl.1 y (by rw [Multiset.mem_toFinset, hmem_all0]; exact Or.inr rfl)
    · have hzmem : z ∈ r.toFinset :=
        hcl.1 z (by rw [Multiset.mem_toFinset, hmem_all0]; exact Or.inl hz)
      induction hzr with
      | refl => exact hzmem
      | tail h1 h2 ih => exact hcl.2 _ ih _ h2

lemma fStep_rel_eq (adj : List (String × List String)) (stops : List String) :
    (fun a b => b ∈ fStep adj stops a) =
      (fun a b => b ∈ lookupLL adj a ∧ b ∉ stops) := by
  funext a b
  exact propext mem_fStep

lemma fStep_rel_nil (adj : List (String × List String)) :
    (fun a b => b ∈ fStep adj [] a) = (fun a b => b ∈ lookupLL adj a) := by
  funext a b
  refine propext ?_
  rw [mem_fStep]
  simp


/-! ### Claim theorems: traces as reachable sets -/

/-- C1: with no active barriers, `trace_up_from_a_flowline(x, include_wb_permids=False)`
is exactly the set of ids reachable from `x` through the upstream adjacency
(including `x` itself), and `trace_down_from_a_flowline` likewise for the
downstream adjacency.  Stated as a membership characterisation by reflexive-
transitive reachability, which is insensitive to cycles: a cyclic graph has
the same reachable set as its cycle-free unrolling. -/
theorem trace_reachable_no_barriers (net : NHDNetwork)
    (h : net.flowline_stop_ids = []) (x y : String) :
    (y ∈ trace_up_from_a_flowline net x false ↔
      Relation.ReflTransGen (fun a b => b ∈ lookupLL net.upstream a) x y) ∧
    (y ∈ trace_down_from_a_flowline net x false ↔
      Relation.ReflTransGen (fun a b => b ∈ lookupLL net.downstream a) x y) := by
  constructor
  · show y ∈ flowline_trace net.upstream net.flowline_stop_ids x ↔ _
    rw [h, mem_flowline_trace]
    rw [show (fun a b => b ∈ fStep net.upstream [] a) =
      (fun a b => b ∈ lookupLL net.upstream a) from fStep_rel_nil net.upstream]
    rw [Relation.ReflTransGen.cases_head_iff]
    constructor
    · rintro (rfl | ⟨z, hz, hzy⟩)
      · exact Or.inl rfl
      · exact Or.inr ⟨z, hz, hzy⟩
    · rintro (rfl | ⟨z, hz, hzy⟩)
      · exact Or.inl rfl
      · exact Or.inr ⟨z, hz, hzy⟩
  · show y ∈ flowline_trace net.downstream net.flowline_stop_ids x ↔ _
    rw [h, mem_flowline_trace]
    rw [show (fun a b => b ∈ fStep net.downstream [] a) =
      (fun a b => b ∈ lookupLL net.downstream a) from fStep_rel_nil net.downstream]
    rw [Relation.ReflTransGen.cases_head_iff]
    constructor
    · rintro (rfl | ⟨z, hz, hzy⟩)
      · exact Or.inl rfl
      · exact Or.inr ⟨z, hz, hzy⟩
    · rintro (rfl | ⟨z, hz, hzy⟩)
      · exact Or.inl rfl
      · exact Or.inr ⟨z, hz, hzy⟩

/-- Witness for C1 on a concrete cyclic graph: tracing up from `c` in the
3-cycle terminates and certifies that `a` is upstream-reachable from `c`. -/
theorem trace_reachable_no_barriers_witness :
    Relation.ReflTransGen (fun a b => b ∈ lookupLL cycleNet.upstream a) "c" "a" :=
  ((trace_reachable_no_barriers cycleNet rfl "c" "a").1).mp (by decide)

/-- C3 counterexample: for the chain `A → B → C → D` with an active barrier at
`B`, the claim asserts `trace_up(D) = {B, C, D}`, but the code removes barrier
ids from every expanded frontier before they are recorded, so the trace is
`{C, D}`: the barrier `B` itself does not appear even though it was reached. -/
theorem trace_up_barrier_example_refuted :
    trace_up_from_a_flowline chainBNet "D" false ≠ ({"B", "C", "D"} : Finset String) ∧
    trace_up_from_a_flowline chainBNet "D" false = ({"C", "D"} : Finset String) := by
  constructor
  · decide
  · decide

/-- C3 (amended): with an active barrier list, the flowline-level upstream
trace contains the start, every immediate upstream neighbour of the start
(including barrier ids), and exactly those further ids reachable from an
immediate neighbour by upstream steps that never land on a barrier id.
Consequently a barrier that is not an immediate neighbour of the start is
itself excluded together with everything only reachable through it, while a
barrier that is an immediate neighbour of the start is included and does not
stop the trace from continuing past it. -/
theorem trace_up_barrier_characterisation (net : NHDNetwork) (x y : String) :
    y ∈ trace_up_from_a_flowline net x false ↔
      y = x ∨ ∃ z, z ∈ lookupLL net.upstream x ∧
        Relation.ReflTransGen
          (fun a b => b ∈ lookupLL net.upstream a ∧ b ∉ net.flowline_stop_ids) z y := by
  show y ∈ flowline_trace net.upstream net.flowline_stop_ids x ↔ _
  rw [mem_flowline_trace]
  rw [fStep_rel_eq]

/-- C10: a flowline id with no entry in the upstream dictionary is a valid
trace start: the trace is exactly the singleton of the start id, whatever the
active barrier configuration. -/
theorem trace_up_unknown_start (net : NHDNetwork) (f : String)
    (h : f ∉ net.upstream.map Prod.fst) :
    trace_up_from_a_flowline net f false = {f} := by
  show flowline_trace net.upstream net.flowline_stop_ids f = {f}
  rw [flowline_trace]
  simp only [lookupLL_eq_nil net.upstream f h]
  rw [show (([] : List String).toFinset : Finset String) = ∅ from rfl]
  rw [traceLoop_empty]
  rfl

/-- Witness for C10 at a concrete network with a non-trivial upstream
dictionary and an active barrier: the id `x` has no entry, so its trace is
`{x}`. -/
theorem trace_up_unknown_start_witness :
    trace_up_from_a_flowline chainBNet "x" false = {"x"} :=
  trace_up_unknown_start chainBNet "x" (by decide)

/-! ### Step-count bound for the trace loop (cycle safety) -/

lemma TraceInv_init (adj : List (String × List String)) (stops : List String)
    (start : String) :
    TraceInv adj stops start (lookupLL adj start).toFinset
      ((lookupLL adj start ++ [start] : List String) : Multiset String) := by
  have hmem : ∀ a : String,
      a ∈ (((lookupLL adj start ++ [start] : List String) : Multiset String)).toFinset ↔
        (a ∈ lookupLL adj start ∨ a = start) := by
    intro a
    rw [Multiset.mem_toFinset]
    simp [Multiset.mem_coe, List.mem_append]
  refine ⟨?_, ?_, ?_, ?_⟩
  · intro x hx
    rw [hmem]
    exact Or.inl (List.mem_toFinset.mp hx)
  · rw [hmem]
    exact Or.inr rfl
  · intro b hb
    rw [hmem]
    exact Or.inl hb
  · intro a ha
    rw [hmem] at ha
    rcases ha with h | h
    · exact Or.inl (List.mem_toFinset.mpr h)
    · subst h
      right
      intro b hb
      rw [hmem]
      exact Or.inl (mem_fStep.mp hb).1

lemma TraceInv_step_phase2 (adj : List (String × List String)) (stops : List String)
    (start : String) (F : Finset String) (all : Multiset String)
    (hInv : TraceInv adj stops start F all) :
    TraceInv adj stops start (nextFiltered adj stops F \ all.toFinset)
      (all.toFinset.val + (nextFiltered adj stops F \ all.toFinset).val) := by
  obtain ⟨hFA, hst, hlk, hI2⟩ := hInv
  set fresh : Finset String := nextFiltered adj stops F \ all.toFinset with hfresh
  have htf : (all.toFinset.val + fresh.val).toFinset = all.toFinset ∪ fresh :=
    toFinset_phase2 all fresh
  have hnext_mem : ∀ b ∈ nextFiltered adj stops F, b ∈ all.toFinset ∪ fresh := by
    intro b hb
    by_cases hbA : b ∈ all.toFinset
    · exact Finset.mem_union_left _ hbA
    · exact Finset.mem_union_right _ (Finset.mem_sdiff.mpr ⟨hb, hbA⟩)
  refine ⟨?_, ?_, ?_, ?_⟩
  · intro x hx
    rw [htf]
    exact Finset.mem_union_right _ hx
  · rw [htf]
    exact Finset.mem_union_left _ hst
  · intro b hb
    rw [htf]
    exact Finset.mem_union_left _ (hlk b hb)
  · intro a ha
    rw [htf] at ha ⊢
    rcases Finset.mem_union.mp ha with ha | ha
    · rcases hI2 a ha with hfa | hcl
      · right
        intro b hb
        apply hnext_mem
        rw [nextFiltered_eq]
        exact Finset.mem_biUnion.mpr ⟨a, hfa, hb⟩
      · right
        intro b hb
        exact Finset.mem_union_left _ (hcl b hb)
    · exact Or.inl ha

lemma TraceInv_step_phase1 (adj : List (String × List String)) (stops : List String)
    (start : String) (F : Finset String) (all : Multiset String)
    (hInv : TraceInv adj stops start F all) :
    TraceInv adj stops start (nextFiltered adj stops F)
      (all + (nextFiltered adj stops F).val) := by
  obtain ⟨hFA, hst, hlk, hI2⟩ := hInv
  set nf : Finset String := nextFiltered adj stops F with hnf
  have htf : (all + nf.val).toFinset = all.toFinset ∪ nf := toFinset_phase1 all nf
  refine ⟨?_, ?_, ?_, ?_⟩
  · intro x hx
    rw [htf]
    exact Finset.mem_union_right _ hx
  · rw [htf]
    exact Finset.mem_union_left _ hst
  · intro b hb
    rw [htf]
    exact Finset.mem_union_left _ (hlk b hb)
  · intro a ha
    rw [htf] at ha ⊢
    rcases Finset.mem_union.mp ha with ha | ha
    · rcases hI2 a ha with hfa | hcl
      · right
        intro b hb
        refine Finset.mem_union_right _ ?_
        rw [hnf, nextFiltered_eq]
        exact Finset.mem_biUnion.mpr ⟨a, hfa, hb⟩
      · right
        intro b hb
        exact Finset.mem_union_left _ (hcl b hb)
    · exact Or.inl ha

/-- Once every frontier id has all of its filtered successors already
accumulated, no new id can ever be discovered: the loop ends within
`limit - len(all_from_ids) + 1` further iterations. -/
lemma traceLoop_isSome_processed (adj : List (String × List String)) (stops : List String)
    (limit : Nat) :
    ∀ n (F : Finset String) (all : Multiset String),
      (∀ a ∈ all.toFinset, a ∈ F ∨ ∀ b ∈ fStep adj stops a, b ∈ all.toFinset) →
      (∀ x ∈ F, ∀ b ∈ fStep adj stops x, b ∈ all.toFinset) →
      limit - Multiset.card all + 1 ≤ n →
      (traceLoop adj stops limit n F all).isSome := by
  intro n
  induction n with
  | zero => intro F all _ _ h; omega
  | succ n ih =>
    intro F all hI2 hQ hfuel
    by_cases hF : F = ∅
    · subst hF
      rw [traceLoop_empty]
      rfl
    · simp only [traceLoop, if_neg hF]
      have hnf_sub : nextFiltered adj stops F ⊆ all.toFinset := by
        intro b hb
        rw [nextFiltered_eq] at hb
        obtain ⟨x, hx, hbx⟩ := Finset.mem_biUnion.mp hb
        exact hQ x hx b hbx
      by_cases hlim : limit ≤ Multiset.card all
      · rw [if_pos hlim]
        have hfr : nextFiltered adj stops F \ all.toFinset = ∅ :=
          Finset.sdiff_eq_empty_iff_subset.mpr hnf_sub
        rw [hfr, traceLoop_empty]
        rfl
      · rw [if_neg hlim]
        by_cases hnfe : nextFiltered adj stops F = ∅
        · rw [hnfe, traceLoop_empty]
          rfl
        · have htf : (all + (nextFiltered adj stops F).val).toFinset = all.toFinset := by
            rw [toFinset_phase1]
            exact Finset.union_eq_left.mpr hnf_sub
          have hproc : ∀ a ∈ all.toFinset, ∀ b ∈ fStep adj stops a, b ∈ all.toFinset := by
            intro a ha
            rcases hI2 a ha with hfa | hcl
            · exact hQ a hfa
            · exact hcl
          refine ih _ _ ?_ ?_ ?_
          · intro a ha
            rw [htf] at ha ⊢
            right
            exact hproc a ha
          · intro x hx
            rw [htf]
            exact hproc x (hnf_sub hx)
          · have hcard : Multiset.card (all + (nextFiltered adj stops F).val) =
                Multiset.card all + (nextFiltered adj stops F).card := by
              rw [Multiset.card_add]
              rfl
            have hpos : 1 ≤ (nextFiltered adj stops F).card :=
              Finset.card_pos.mpr (Finset.nonempty_iff_ne_empty.mpr hnfe)
            omega

/-- Every iteration either records a not-yet-visited key of the adjacency
dictionary, or leaves a state from which `traceLoop_isSome_processed` applies;
therefore fuel `(unvisited keys) + 2` suffices. -/
lemma traceLoop_isSome_star (adj : List (String × List String)) (stops : List String)
    (start : String) (limit : Nat) :
    ∀ n (F : Finset String) (all : Multiset String),
      TraceInv adj stops start F all →
      limit ≤ ((adj.map Prod.fst).toFinset ∪ all.toFinset).card →
      ((adj.map Prod.fst).toFinset \ all.toFinset).card + 2 ≤ n →
      (traceLoop adj stops limit n F all).isSome := by
  intro n
  induction n with
  | zero => intro F all _ _ h; omega
  | succ n ih =>
    intro F all hInv hL hn
    by_cases hF : F = ∅
    · subst hF
      rw [traceLoop_empty]
      rfl
    · simp only [traceLoop, if_neg hF]
      set K : Finset String := (adj.map Prod.fst).toFinset with hK
      by_cases hkey : ∃ k, k ∈ nextFiltered adj stops F ∧ k ∉ all.toFinset ∧ k ∈ K
      · obtain ⟨k, hknf, hkA, hkK⟩ := hkey
        by_cases hlim : limit ≤ Multiset.card all
        · rw [if_pos hlim]
          set fresh : Finset String := nextFiltered adj stops F \ all.toFinset with hfresh
          have htf : (all.toFinset.val + fresh.val).toFinset = all.toFinset ∪ fresh :=
            toFinset_phase2 all fresh
          have hkfresh : k ∈ fresh := Finset.mem_sdiff.mpr ⟨hknf, hkA⟩
          refine ih _ _ (TraceInv_step_phase2 adj stops start F all hInv) ?_ ?_
          · rw [htf]
            refine le_trans hL (Finset.card_le_card ?_)
            intro y hy
            rcases Finset.mem_union.mp hy with hy | hy
            · exact Finset.mem_union_left _ hy
            · exact Finset.mem_union_right _ (Finset.mem_union_left _ hy)
          · rw [htf]
            have hsub : K \ (all.toFinset ∪ fresh) ⊂ K \ all.toFinset := by
              constructor
              · intro y hy
                rw [Finset.mem_sdiff] at hy ⊢
                exact ⟨hy.1, fun hc => hy.2 (Finset.mem_union_left _ hc)⟩
              · intro hcon
                have := hcon (Finset.mem_sdiff.mpr ⟨hkK, hkA⟩)
                rw [Finset.mem_sdiff] at this
                exact this.2 (Finset.mem_union_right _ hkfresh)
            have := Finset.card_lt_card hsub
            omega
        · rw [if_neg hlim]
          set nf : Finset String := nextFiltered adj stops F with hnf
          have htf : (all + nf.val).toFinset = all.toFinset ∪ nf := toFinset_phase1 all nf
          refine ih _ _ (TraceInv_step_phase1 adj stops start F all hInv) ?_ ?_
          · rw [htf]
            refine le_trans hL (Finset.card_le_card ?_)
            intro y hy
            rcases Finset.mem_union.mp hy with hy | hy
            · exact Finset.mem_union_left _ hy
            · exact Finset.mem_union_right _ (Finset.mem_union_left _ hy)
          · rw [htf]
            have hsub : K \ (all.toFinset ∪ nf) ⊂ K \ all.toFinset := by
              constructor
              · intro y hy
                rw [Finset.mem_sdiff] at hy ⊢
                exact ⟨hy.1, fun hc => hy.2 (Finset.mem_union_left _ hc)⟩
              · intro hcon
                have := hcon (Finset.mem_sdiff.mpr ⟨hkK, hkA⟩)
                rw [Finset.mem_sdiff] at this
                exact this.2 (Finset.mem_union_right _ hknf)
            have := Finset.card_lt_card hsub
            omega
      · push_neg at hkey
        have hI2 := hInv.2.2.2
        have hfresh_dead : ∀ y, y ∈ nextFiltered adj stops F → y ∉ all.toFinset →
            fStep adj stops y = ∅ := by
          intro y hynf hyA
          have hyK : y ∉ K := hkey y hynf hyA
          have : lookupLL adj y = [] := by
            apply lookupLL_eq_nil
            intro hc
            exact hyK (List.mem_toFinset.mpr hc)
          rw [fStep, this]
          simp
        by_cases hlim : limit ≤ Multiset.card all
        · rw [if_pos hlim]
          set fresh : Finset String := nextFiltered adj stops F \ all.toFinset with hfresh
          have htf : (all.toFinset.val + fresh.val).toFinset = all.toFinset ∪ fresh :=
            toFinset_phase2 all fresh
          have hInv' := TraceInv_step_phase2 adj stops start F all hInv
          refine traceLoop_isSome_processed adj stops limit n fresh _ hInv'.2.2.2 ?_ ?_
          · intro x hx b hb
            have hxs := Finset.mem_sdiff.mp hx
            rw [hfresh_dead x hxs.1 hxs.2] at hb
            exact absurd hb (Finset.not_mem_empty b)
          · have hsdcard : (K \ (all.toFinset ∪ fresh)).card ≤ (K \ all.toFinset).card := by
              refine Finset.card_le_card ?_
              intro y hy
              rw [Finset.mem_sdiff] at hy ⊢
              exact ⟨hy.1, fun hc => hy.2 (Finset.mem_union_left _ hc)⟩
            have hkey_card : limit ≤ (K \ (all.toFinset ∪ fresh)).card +
                Multiset.card (all.toFinset.val + fresh.val) := by
              have h1 : limit ≤ (K ∪ (all.toFinset ∪ fresh)).card := by
                refine le_trans hL (Finset.card_le_card ?_)
                intro y hy
                rcases Finset.mem_union.mp hy with hy | hy
                · exact Finset.mem_union_left _ hy
                · exact Finset.mem_union_right _ (Finset.mem_union_left _ hy)
              have h2 : (K ∪ (all.toFinset ∪ fresh)).card ≤
                  (K \ (all.toFinset ∪ fresh)).card + (all.toFinset ∪ fresh).card := by
                rw [Finset.card_sdiff_add_card]
              have h3 : (all.toFinset ∪ fresh).card ≤
                  Multiset.card (all.toFinset.val + fresh.val) := by
                rw [← htf]
                exact Multiset.toFinset_card_le _
              omega
            omega
        · rw [if_neg hlim]
          set nf : Finset String := nextFiltered adj stops F with hnf
          have htf : (all + nf.val).toFinset = all.toFinset ∪ nf := toFinset_phase1 all nf
          have hInv' := TraceInv_step_phase1 adj stops start F all hInv
          refine traceLoop_isSome_processed adj stops limit n nf _ hInv'.2.2.2 ?_ ?_
          · intro x hx b hb
            by_cases hxA : x ∈ all.toFinset
            · rcases hI2 x hxA with hxF | hcl
              · rw [htf]
                refine Finset.mem_union_right _ ?_
                rw [hnf, nextFiltered_eq]
                exact Finset.mem_biUnion.mpr ⟨x, hxF, hb⟩
              · rw [htf]
                exact Finset.mem_union_left _ (hcl b hb)
            · rw [hfresh_dead x hx hxA] at hb
              exact absurd hb (Finset.not_mem_empty b)
          · have hsdcard : (K \ (all.toFinset ∪ nf)).card ≤ (K \ all.toFinset).card := by
              refine Finset.card_le_card ?_
              intro y hy
              rw [Finset.mem_sdiff] at hy ⊢
              exact ⟨hy.1, fun hc => hy.2 (Finset.mem_union_left _ hc)⟩
            have h1 : limit ≤ (K ∪ (all.toFinset ∪ nf)).card := by
              refine le_trans hL (Finset.card_le_card ?_)
              intro y hy
              rcases Finset.mem_union.mp hy with hy | hy
              · exact Finset.mem_union_left _ hy
              · exact Finset.mem_union_right _ (Finset.mem_union_left _ hy)
            have h2 : (K ∪ (all.toFinset ∪ nf)).card ≤
                (K \ (all.toFinset ∪ nf)).card + (all.toFinset ∪ nf).card := by
              rw [Finset.card_sdiff_add_card]
            have h3 : (all.toFinset ∪ nf).card ≤ Multiset.card (all + nf.val) := by
              rw [← htf]
              exact Multiset.toFinset_card_le _
            omega

lemma dictLen_eq_card (adj : List (String × List String)) (start : String)
    (hnd : (adj.map Prod.fst).Nodup) :
    dictLen adj start = (insert start (adj.map Prod.fst).toFinset).card := by
  rw [dictLen]
  by_cases h : start ∈ adj.map Prod.fst
  · rw [if_pos h, Finset.insert_eq_self.mpr (List.mem_toFinset.mpr h),
      List.toFinset_card_of_nodup hnd, List.length_map]
  · rw [if_neg h,
      Finset.card_insert_of_not_mem (fun hc => h (List.mem_toFinset.mp hc)),
      List.toFinset_card_of_nodup hnd, List.length_map]

/-- From any invariant-satisfying loop state whose accumulated length has
reached `limit`, the loop finishes within `limit` further iterations. -/
lemma traceLoop_isSome_limit (adj : List (String × List String)) (stops : List String)
    (start : String) (F : Finset String) (all : Multiset String)
    (hnd : (adj.map Prod.fst).Nodup)
    (hInv : TraceInv adj stops start F all)
    (hreach : dictLen adj start ≤ Multiset.card all) :
    (traceLoop adj stops (dictLen adj start) (dictLen adj start) F all).isSome := by
  set K : Finset String := (adj.map Prod.fst).toFinset with hK
  have hLcard : dictLen adj start = (insert start K).card := dictLen_eq_card adj start hnd
  have hstart : start ∈ all.toFinset := hInv.2.1
  have hLup : dictLen adj start ≤ (K ∪ all.toFinset).card := by
    rw [hLcard]
    refine Finset.card_le_card ?_
    intro y hy
    rcases Finset.mem_insert.mp hy with rfl | hy
    · exact Finset.mem_union_right _ hstart
    · exact Finset.mem_union_left _ hy
  by_cases hQ : ∀ x ∈ F, ∀ b ∈ fStep adj stops x, b ∈ all.toFinset
  · refine traceLoop_isSome_processed adj stops _ _ F all hInv.2.2.2 hQ ?_
    have hpos : 1 ≤ dictLen adj start := by
      rw [hLcard]
      exact Finset.card_pos.mpr ⟨start, Finset.mem_insert_self _ _⟩
    omega
  · push_neg at hQ
    obtain ⟨x, hxF, b, hb, hbA⟩ := hQ
    have hxK : x ∈ K := by
      by_contra hxK
      have : lookupLL adj x = [] := lookupLL_eq_nil adj x (fun hc => hxK (List.mem_toFinset.mpr hc))
      rw [mem_fStep, this] at hb
      exact absurd hb.1 (List.not_mem_nil b)
    have hxA : x ∈ all.toFinset := hInv.1 x hxF
    have hxs : x ≠ start := by
      rintro rfl
      exact hbA (hInv.2.2.1 b (mem_fStep.mp hb).1)
    refine traceLoop_isSome_star adj stops start _ _ F all hInv hLup ?_
    have hsub : K \ all.toFinset ∪ {x, start} ⊆ insert start K := by
      intro y hy
      rcases Finset.mem_union.mp hy with hy | hy
      · exact Finset.mem_insert_of_mem (Finset.mem_sdiff.mp hy).1
      · rcases Finset.mem_insert.mp hy with rfl | hy
        · exact Finset.mem_insert_of_mem hxK
        · rw [Finset.mem_singleton] at hy
          subst hy
          exact Finset.mem_insert_self _ _
    have hdisj : Disjoint (K \ all.toFinset) ({x, start} : Finset String) := by
      rw [Finset.disjoint_right]
      intro y hy
      rcases Finset.mem_insert.mp hy with rfl | hy
      · simp [Finset.mem_sdiff, hxA]
      · rw [Finset.mem_singleton] at hy
        subst hy
        simp [Finset.mem_sdiff, hstart]
    have hpair : ({x, start} : Finset String).card = 2 := Finset.card_pair hxs
    have hle := Finset.card_le_card hsub
    rw [Finset.card_union_of_disjoint hdisj, hpair] at hle
    have hgoal : (K \ all.toFinset).card + 2 ≤ (insert start K).card := by omega
    rw [hLcard]
    exact hgoal

/-- C2: every call of the trace while-loop made by `trace_up_from_a_flowline`
and `trace_down_from_a_flowline` terminates, for every network, cycles and
barriers included (first two conjuncts: the loop returns a value at the fuel
the trace functions supply).  Moreover (third conjunct), from any loop state
satisfying the run invariant whose accumulated list has reached
`limit = len(upstream)` — the regime in which the frontier is restricted to
ids not already visited — the loop finishes within at most `limit` further
iterations (fuel `limit` suffices). -/
theorem trace_loops_terminate :
    (∀ (net : NHDNetwork) (x : String),
      (traceLoop net.upstream net.flowline_stop_ids (dictLen net.upstream x)
        (traceFuel net.upstream (dictLen net.upstream x))
        (lookupLL net.upstream x).toFinset
        ((lookupLL net.upstream x ++ [x] : List String) : Multiset String)).isSome ∧
      (traceLoop net.downstream net.flowline_stop_ids (dictLen net.downstream x)
        (traceFuel net.downstream (dictLen net.downstream x))
        (lookupLL net.downstream x).toFinset
        ((lookupLL net.downstream x ++ [x] : List String) : Multiset String)).isSome) ∧
    (∀ (adj : List (String × List String)) (stops : List String) (x : String)
        (F : Finset String) (all : Multiset String),
      (adj.map Prod.fst).Nodup →
      TraceInv adj stops x F all →
      dictLen adj x ≤ Multiset.card all →
      (traceLoop adj stops (dictLen adj x) (dictLen adj x) F all).isSome) := by
  constructor
  · intro net x
    exact ⟨traceLoop_isSome_of_fuel _ _ _ _ _, traceLoop_isSome_of_fuel _ _ _ _ _⟩
  · intro adj stops x F all hnd hInv hreach
    exact traceLoop_isSome_limit adj stops x F all hnd hInv hreach

/-- Witness for C2 on a concrete state of the cyclic network: the state has
already accumulated `limit = 3` entries (with a duplicate), satisfies the run
invariant, and the loop finishes within 3 further iterations. -/
theorem trace_loops_terminate_witness :
    (traceLoop cycleNet.upstream [] (dictLen cycleNet.upstream "c")
      (dictLen cycleNet.upstream "c") {"b"}
      ((["b", "c", "b", "a"] : List String) : Multiset String)).isSome :=
  trace_loops_terminate.2 cycleNet.upstream [] "c" {"b"}
    ((["b", "c", "b", "a"] : List String) : Multiset String)
    (by decide) (by unfold TraceInv; decide) (by decide)

/-! ### Claim theorems: lake outlets and connectivity classification -/

lemma classify_label_isolated_iff (tu td : Finset String) (inside : List String)
    (tenha : List String) (excl : Bool) :
    classify_label tu td inside tenha excl = "Isolated" ↔
      (tu \ inside.toFinset = ∅ ∧ td \ inside.toFinset = ∅) := by
  rw [classify_label]
  by_cases h1 : tu = ∅ ∧ td = ∅ ∧ excl = false
  · rw [if_pos h1]
    simp [h1.1, h1.2.1]
  · rw [if_neg h1]
    by_cases h2 : tu \ inside.toFinset = ∅
    · rw [if_pos h2]
      by_cases h3 : td \ inside.toFinset ≠ ∅
      · rw [if_pos h3]
        constructor
        · intro hc
          exact absurd hc (by decide)
        · rintro ⟨_, hd⟩
          exact absurd hd h3
      · rw [if_neg h3]
        rw [not_ne_iff] at h3
        simp [h2, h3]
    · rw [if_neg h2]
      by_cases h4 : td \ inside.toFinset = ∅
      · rw [if_pos h4]
        by_cases h5 : (tu \ inside.toFinset) ∩ tenha.toFinset ≠ ∅
        · rw [if_pos h5]
          constructor
          · intro hc
            exact absurd hc (by decide)
          · rintro ⟨hu, _⟩
            exact absurd hu h2
        · rw [if_neg h5]
          constructor
          · intro hc
            exact absurd hc (by decide)
          · rintro ⟨hu, _⟩
            exact absurd hu h2
      · rw [if_neg h4]
        by_cases h6 : (tu \ inside.toFinset) ∩ tenha.toFinset ≠ ∅
        · rw [if_pos h6]
          constructor
          · intro hc
            exact absurd hc (by decide)
          · rintro ⟨hu, _⟩
            exact absurd hu h2
        · rw [if_neg h6]
          constructor
          · intro hc
            exact absurd hc (by decide)
          · rintro ⟨hu, _⟩
            exact absurd hu h2

/-- C4: `classify_waterbody_connectivity` returns `"Isolated"` exactly when
both non-self traces — each waterbody trace with the lake's own
`waterbody_flowline` entry and the lake's own id removed — are empty, for
every prior barrier configuration and whether or not intermittent-flow
exclusion is active.  The traces are those the function computes, on the
normalised state `classify_pre net`. -/
theorem classify_isolated_iff (net : NHDNetwork) (w : String) :
    (classify_waterbody_connectivity net w).1 = "Isolated" ↔
      (trace_up_from_a_waterbody (classify_pre net) w \
        (lookupLL (classify_pre net).waterbody_flowline w ++ [w]).toFinset = ∅ ∧
       trace_down_from_a_waterbody (classify_pre net) w \
        (lookupLL (classify_pre net).waterbody_flowline w ++ [w]).toFinset = ∅) := by
  exact classify_label_isolated_iff _ _ _ _ _

/-- C9 refutation (code bug): `classify_waterbody_connectivity` is not free of
side effects on the identifier maps.  On a one-flowline lake with no barriers
set, the call appends the waterbody's own id to its `waterbody_flowline`
entry (Python `inside_ids.append` mutates the stored list through aliasing),
so the map differs after the call. -/
theorem classify_mutates_waterbody_flowline :
    (classify_waterbody_connectivity oneFlowlineLakeNet "w").2.waterbody_flowline ≠
      oneFlowlineLakeNet.waterbody_flowline ∧
    (classify_waterbody_connectivity oneFlowlineLakeNet "w").2.waterbody_flowline =
      [("w", ["f", "w"])] := by
  constructor
  · decide
  · decide

/-- C6 counterexample: for the two-flowline lake (`L2` feeds `L1`), the code
returns `{L1}` (the most-downstream member), while the claim's wording — own
flowlines with no upstream neighbour within the own set — denotes `{L2}`. -/
theorem identify_lake_outlets_claim_refuted :
    identify_lake_outlets twoFlowlineLakeNet "w" ≠
      lake_outlets_claimed twoFlowlineLakeNet "w" ∧
    identify_lake_outlets twoFlowlineLakeNet "w" = {"L1"} ∧
    lake_outlets_claimed twoFlowlineLakeNet "w" = {"L2"} := by
  refine ⟨by decide, by decide, by decide⟩

/-- C6 (amended): `identify_lake_outlets` returns exactly the lake's own
flowline ids that are not an upstream neighbour of any of the lake's own
flowlines (their flow does not enter another member of the lake's own flowline
set — the most-downstream members); in particular `{L1}` for the two-flowline
example. -/
theorem identify_lake_outlets_char (net : NHDNetwork) (w f : String) :
    f ∈ identify_lake_outlets net w ↔
      f ∈ lookupLL net.waterbody_flowline w ∧
      ∀ g ∈ lookupLL net.waterbody_flowline w, f ∉ lookupLL net.upstream g := by
  simp only [identify_lake_outlets, Finset.mem_sdiff, Finset.mem_biUnion, List.mem_toFinset,
    not_exists]
  constructor
  · rintro ⟨hf, hng⟩
    exact ⟨hf, fun g hg hfg => hng g ⟨hg, hfg⟩⟩
  · rintro ⟨hf, hng⟩
    exact ⟨hf, fun g hgf => hng g hgf.1 hgf.2⟩

/-! ### Claim theorems: subregion outlet method selection -/

/-- C7 counterexample: on the star network (`x1, x2, x3` all flowing into
`y`) the code accepts the primary method — its test compares the whole trace
union against the ids recorded as a from-id — although the claim's coverage
test (against the segments that have a recorded upstream neighbour, here
`{y}`) fails: the traces cover none of them. -/
theorem subregion_outlets_claim_refuted :
    (identify_subregion_outlets starNet).map (fun r => r.2.outlets_type) =
      some (some "primary") ∧
    ¬ subregion_primary_accept_claimed starNet := by
  constructor
  · decide
  · unfold subregion_primary_accept_claimed
    decide

/-- C7 (amended): on a network whose outlets have not yet been typed,
`identify_subregion_outlets` accepts the primary method (records
`outlets_type = "primary"`) iff the primary candidate set is non-empty and
the union of the candidates' upstream traces has at least half as many ids as
there are ids recorded as an upstream (from-) neighbour anywhere in the flow
dictionary; in every other successful outcome the primary type is not
recorded. -/
theorem subregion_outlets_primary_iff (net : NHDNetwork) (r : List String × NHDNetwork)
    (htype : net.outlets_type = none)
    (h : identify_subregion_outlets net = some r) :
    r.2.outlets_type = some "primary" ↔
      (subregion_outlet_candidates net ≠ [] ∧
       (adjUniv net.upstream).card ≤ 2 * (subregion_outlet_network net).card) := by
  simp only [identify_subregion_outlets] at h
  split_ifs at h with hc0 hsec hfr hlow
  · have hty : r.2.outlets_type = net.outlets_type := by
      rw [← Option.some_inj.mp h]
    rw [hty, htype]
    constructor
    · intro hc
      exact absurd hc (by simp)
    · rintro ⟨hne, hle⟩
      rcases hsec with he | hlt
      · exact absurd he hne
      · omega
  · have hty : r.2.outlets_type = some "secondary" := by
      rw [← Option.some_inj.mp h]
    rw [hty]
    constructor
    · intro hc
      exact absurd hc (by decide)
    · rintro ⟨hne, hle⟩
      rcases hsec with he | hlt
      · exact absurd he hne
      · omega
  · have hty : r.2.outlets_type = some "primary" := by
      rw [← Option.some_inj.mp h]
    rw [hty]
    rw [not_or, not_lt] at hsec
    constructor
    · intro _
      exact ⟨hsec.1, hsec.2⟩
    · intro _
      rfl

/-- Witness for C7 (amended) at the star network: the function succeeds and
the iff certifies the primary decision there. -/
theorem subregion_outlets_primary_iff_witness :
    ((identify_subregion_outlets starNet).getD ([], starNet)).2.outlets_type =
      some "primary" :=
  (subregion_outlets_primary_iff starNet
    ((identify_subregion_outlets starNet).getD ([], starNet)) (by decide)
    (by decide)).mpr ⟨by decide, by decide⟩

/-! ### Claim theorems: interlake erasable regions -/

lemma lookupFS_map (l : List String) (f : String → Finset String) (k : String)
    (hk : k ∈ l) :
    lookupFS (l.map (fun x => (x, f x))) k = f k := by
  induction l with
  | nil => cases hk
  | cons a rest ih =>
    simp only [List.map_cons, lookupFS]
    by_cases hak : a = k
    · rw [if_pos hak, hak]
    · rw [if_neg hak]
      refine ih ?_
      rcases List.mem_cons.mp hk with rfl | hmem
      · exact absurd rfl hak
      · exact hmem

lemma mem_foldr_union (l : List (String × Finset String))
    (g : String × Finset String → Finset String) (x : String) :
    x ∈ l.foldr (fun p acc => g p ∪ acc) ∅ ↔ ∃ p ∈ l, x ∈ g p := by
  induction l with
  | nil => simp
  | cons a rest ih =>
    simp only [List.foldr_cons, Finset.mem_union, ih, List.mem_cons]
    constructor
    · rintro (hx | ⟨p, hp, hxp⟩)
      · exact ⟨a, Or.inl rfl, hx⟩
      · exact ⟨p, Or.inr hp, hxp⟩
    · rintro ⟨p, rfl | hp, hxp⟩
      · exact Or.inl hxp
      · exact Or.inr ⟨p, hp, hxp⟩

lemma start_mem_flowline_trace (adj : List (String × List String)) (stops : List String)
    (start : String) : start ∈ flowline_trace adj stops start :=
  (mem_flowline_trace adj stops start start).mpr (Or.inl rfl)

lemma start_mem_trace_up (net : NHDNetwork) (x : String) (b : Bool) :
    x ∈ trace_up_from_a_flowline net x b := by
  cases b
  · exact start_mem_flowline_trace _ _ _
  · exact Finset.mem_union_left _ (start_mem_flowline_trace _ _ _)

lemma outlet_mem_trace_up_waterbody (net : NHDNetwork) (w o : String)
    (ho : o ∈ identify_lake_outlets net w) :
    o ∈ trace_up_from_a_waterbody net w := by
  simp only [trace_up_from_a_waterbody]
  split_ifs with hs
  · exact Finset.mem_biUnion.mpr ⟨o, ho, start_mem_trace_up _ _ _⟩
  · exact Finset.mem_biUnion.mpr ⟨o, ho, start_mem_trace_up _ _ _⟩

lemma classify_pre_lakes_areas (s : NHDNetwork) :
    (classify_pre s).lakes_areas = s.lakes_areas := by
  simp only [classify_pre, activate_10ha_lake_stops, set_stop_ids, deactivate_stops]
  split_ifs <;> rfl

lemma classify_pre_tenha (s : NHDNetwork) :
    (classify_pre s).tenha_waterbody_ids =
      if s.tenha_waterbody_ids = []
      then (s.lakes_areas.filter (fun p => decide (mkRat 1 10 ≤ p.2))).map Prod.fst
      else s.tenha_waterbody_ids := by
  simp only [classify_pre, activate_10ha_lake_stops, set_stop_ids, deactivate_stops]
  split_ifs <;> rfl

lemma classify_result_net_lakes_areas (s : NHDNetwork) (w : String) :
    (classify_result_net s w).lakes_areas = s.lakes_areas := by
  simp only [classify_result_net]
  split_ifs
  all_goals exact classify_pre_lakes_areas s

lemma classify_result_net_tenha (s : NHDNetwork) (w : String) :
    (classify_result_net s w).tenha_waterbody_ids =
      (classify_pre s).tenha_waterbody_ids := by
  simp only [classify_result_net]
  split_ifs <;> rfl

lemma interlake_conn_state_spec (net : NHDNetwork) :
    (interlake_tenha_conn_state net).2.lakes_areas = net.lakes_areas ∧
    (interlake_tenha_conn_state net).2.tenha_waterbody_ids =
      (net.lakes_areas.filter (fun p => decide (mkRat 1 10 ≤ p.2))).map Prod.fst := by
  set ids : List String :=
    (net.lakes_areas.filter (fun p => decide (mkRat 1 10 ≤ p.2))).map Prod.fst with hids
  rw [interlake_tenha_conn_state]
  have hstep : ∀ (L : List String) (acc : List (String × String) × NHDNetwork),
      acc.2.lakes_areas = net.lakes_areas → acc.2.tenha_waterbody_ids = ids →
      ((L.foldl (fun acc id =>
          (acc.1 ++ [(id, (classify_waterbody_connectivity acc.2 id).1)],
           (classify_waterbody_connectivity acc.2 id).2)) acc).2.lakes_areas =
        net.lakes_areas ∧
       (L.foldl (fun acc id =>
          (acc.1 ++ [(id, (classify_waterbody_connectivity acc.2 id).1)],
           (classify_waterbody_connectivity acc.2 id).2)) acc).2.tenha_waterbody_ids =
        ids) := by
    intro L
    induction L with
    | nil => intro acc h1 h2; exact ⟨h1, h2⟩
    | cons x rest ih =>
      intro acc h1 h2
      refine ih _ ?_ ?_
      · show (classify_result_net acc.2 x).lakes_areas = net.lakes_areas
        rw [classify_result_net_lakes_areas, h1]
      · show (classify_result_net acc.2 x).tenha_waterbody_ids = ids
        rw [classify_result_net_tenha, classify_pre_tenha, h1, h2]
        by_cases hid : ids = []
        · rw [if_pos hid, hid]
          exact hids.symm.trans hid
        · rw [if_neg hid]
  refine hstep _ _ ?_ ?_
  · rfl
  · rfl

/-- Extraction of one focal lake's entry from `define_interlake_erasable`: the
entry is the per-lake set algebra applied to the lake's three traces, with
donor lists and isolated-key set whose keys all come from the 10-ha lake
population, itself drawn from `lakes_areas`. -/
lemma define_interlake_lookup (net : NHDNetwork) (d : List (String × Finset String))
    (s' : NHDNetwork) (F : String)
    (h : define_interlake_erasable net = some (d, s'))
    (hF : F ∈ net.waterbody_start_ids) :
    ∃ (tt td : List (String × Finset String)) (iso : Finset String),
      lookupFS d F = interlake_erasable_for F
        (trace_up_from_a_waterbody (deactivate_stops net) F)
        (trace_down_from_a_waterbody (deactivate_stops net) F)
        (trace_up_from_a_waterbody (activate_10ha_lake_stops (deactivate_stops net)) F)
        tt td iso ∧
      (∀ p ∈ tt, ∃ a, (p.1, a) ∈ net.lakes_areas) ∧
      (∀ p ∈ td, ∃ a, (p.1, a) ∈ net.lakes_areas) ∧
      (∀ x ∈ iso, ∃ a, (x, a) ∈ net.lakes_areas) := by
  have hne : ¬(net.waterbody_start_ids = []) := by
    intro he
    rw [he] at hF
    cases hF
  have htenha_mem : ∀ x ∈ (interlake_tenha_conn_state net).2.tenha_waterbody_ids,
      ∃ a, (x, a) ∈ net.lakes_areas := by
    intro x hx
    rw [(interlake_conn_state_spec net).2] at hx
    obtain ⟨p, hp, hpx⟩ := List.mem_map.mp hx
    exact ⟨p.2, by rw [← hpx]; exact List.mem_of_mem_filter hp⟩
  have hmemk : ∀ p ∈ interlake_tenha_nets_full net, ∃ a, (p.1, a) ∈ net.lakes_areas := by
    intro p hp
    obtain ⟨k, hk, hkp⟩ := List.mem_map.mp hp
    refine htenha_mem p.1 ?_
    rw [← hkp]
    show k ∈ _
    simpa [interlake_s5, set_start_ids] using hk
  simp only [define_interlake_erasable] at h
  rw [if_neg hne] at h
  by_cases h5 : (interlake_s5 net).waterbody_start_ids = []
  · rw [if_pos h5] at h
    exact absurd h (by simp)
  · rw [if_neg h5] at h
    rcases hhu : trace_up_from_hu4_outlets (interlake_s5 net) with _ | pr
    · rw [hhu] at h
      exact absurd h (by simp)
    · rw [hhu] at h
      obtain ⟨on_network, s6⟩ := pr
      have hdd := (Prod.mk.injEq _ _ _ _).mp (Option.some_inj.mp h)
      refine ⟨interlake_tenha_terminal net on_network, interlake_tenha_drainage net,
        (interlake_tenha_isolated_keys net).toFinset, ?_, ?_, ?_, ?_⟩
      · rw [← hdd.1, lookupFS_map _ _ _ hF, lookupFS_map _ _ _ hF,
          lookupFS_map _ _ _ hF, lookupFS_map _ _ _ hF]
      · intro p hp
        obtain ⟨q, hq, hqp⟩ := List.mem_map.mp hp
        have hq' := hmemk q (List.mem_of_mem_filter hq)
        rw [← hqp]
        exact hq'
      · intro p hp
        exact hmemk p (List.mem_of_mem_filter hp)
      · intro x hx
        rw [List.mem_toFinset] at hx
        obtain ⟨q, hq, hqx⟩ := List.mem_map.mp hx
        have hq' := hmemk q (List.mem_of_mem_filter hq)
        rw [← hqx]
        exact hq'

/-- C8: a focal lake whose full barrier-free upstream trace has fewer than two
elements is assigned an empty erasable set by `define_interlake_erasable`,
regardless of every other lake's configuration. -/
theorem interlake_small_trace_empty (net : NHDNetwork) (d : List (String × Finset String))
    (s' : NHDNetwork) (F : String)
    (h : define_interlake_erasable net = some (d, s'))
    (hF : F ∈ net.waterbody_start_ids)
    (hsmall : (trace_up_from_a_waterbody (deactivate_stops net) F).card < 2) :
    lookupFS d F = ∅ := by
  obtain ⟨tt, td, iso, hval, -, -, -⟩ := define_interlake_lookup net d s' F h hF
  rw [hval]
  simp only [interlake_erasable_for]
  rw [if_pos (lt_of_le_of_lt (Finset.card_le_card Finset.sdiff_subset) hsmall)]

/-- Witness for C8 at the isolated-focal-lake network. -/
theorem interlake_small_trace_empty_witness :
    lookupFS ((define_interlake_erasable interCexNet).getD ⟨[], interCexNet⟩).1 "F" = ∅ :=
  interlake_small_trace_empty interCexNet
    ((define_interlake_erasable interCexNet).getD ⟨[], interCexNet⟩).1
    ((define_interlake_erasable interCexNet).getD ⟨[], interCexNet⟩).2
    "F" (by decide) (by decide) (by decide)

/-- The C5 claim fails for an isolated focal lake: its full barrier-free
upstream trace is empty, hence contained in its (empty) erasable set. -/
theorem interlake_full_watershed_claim_refuted :
    define_interlake_erasable interCexNet =
      some (((define_interlake_erasable interCexNet).getD ⟨[], interCexNet⟩).1,
        ((define_interlake_erasable interCexNet).getD ⟨[], interCexNet⟩).2) ∧
    "F" ∈ interCexNet.waterbody_start_ids ∧
    trace_up_from_a_waterbody (deactivate_stops interCexNet) "F" ⊆
      lookupFS ((define_interlake_erasable interCexNet).getD ⟨[], interCexNet⟩).1 "F" := by
  decide

/-- C5 (amended): a focal lake with a lake outlet `o` that is not a character
of the lake's own id string and not a defined lake key never has its full
barrier-free upstream trace contained in the erasable set that
`define_interlake_erasable` assigns to it. -/
theorem interlake_never_full_watershed (net : NHDNetwork)
    (d : List (String × Finset String)) (s' : NHDNetwork) (F o : String)
    (h : define_interlake_erasable net = some (d, s'))
    (hF : F ∈ net.waterbody_start_ids)
    (ho : o ∈ identify_lake_outlets net F)
    (hochar : o ∉ charIds F)
    (hol : ∀ a : ℚ, (o, a) ∉ net.lakes_areas) :
    ¬ (trace_up_from_a_waterbody (deactivate_stops net) F ⊆ lookupFS d F) := by
  intro hsub
  obtain ⟨tt, td, iso, hval, htt, htd, hiso⟩ := define_interlake_lookup net d s' F h hF
  have ho1 : o ∈ identify_lake_outlets (deactivate_stops net) F := ho
  have ho2 : o ∈ identify_lake_outlets (activate_10ha_lake_stops (deactivate_stops net)) F := ho
  have hoTU := outlet_mem_trace_up_waterbody (deactivate_stops net) F o ho1
  have hoTI := outlet_mem_trace_up_waterbody
    (activate_10ha_lake_stops (deactivate_stops net)) F o ho2
  have hoE := hsub hoTU
  rw [hval] at hoE
  simp only [interlake_erasable_for] at hoE
  by_cases hcard :
      (trace_up_from_a_waterbody (deactivate_stops net) F \ charIds F).card < 2
  · rw [if_pos hcard] at hoE
    exact absurd hoE (Finset.not_mem_empty o)
  · rw [if_neg hcard] at hoE
    have hoFI : o ∈ trace_up_from_a_waterbody
        (activate_10ha_lake_stops (deactivate_stops net)) F \ charIds F :=
      Finset.mem_sdiff.mpr ⟨hoTI, hochar⟩
    rcases Finset.mem_union.mp hoE with h1 | h2
    · rcases Finset.mem_union.mp h1 with hisoM | hfull
      · obtain ⟨a, ha⟩ := hiso o hisoM
        exact hol a ha
      · obtain ⟨p, hp, hop⟩ := (mem_foldr_union _ _ _).mp hfull
        have hd := of_decide_eq_true (List.mem_filter.mp hp).2
        exact absurd (hd ▸ Finset.mem_inter.mpr ⟨hop, hoFI⟩) (Finset.not_mem_empty o)
    · obtain ⟨p, hp, hop⟩ := (mem_foldr_union _ _ _).mp h2
      exact absurd hoFI (Finset.mem_sdiff.mp hop).2

/-- Witness for the amended C5 at the one-outlet focal-lake network. -/
theorem interlake_never_full_watershed_witness :
    ¬ (trace_up_from_a_waterbody (deactivate_stops interWitNet) "F" ⊆
        lookupFS ((define_interlake_erasable interWitNet).getD ⟨[], interWitNet⟩).1 "F") :=
  interlake_never_full_watershed interWitNet
    ((define_interlake_erasable interWitNet).getD ⟨[], interWitNet⟩).1
    ((define_interlake_erasable interWitNet).getD ⟨[], interWitNet⟩).2
    "F" "f" (by decide) (by decide) (by decide) (by decide)
    (fun a ha => absurd (congrArg Prod.fst (List.mem_singleton.mp ha))
      (by decide : ¬ ("f" : String) = "T"))
